import Mathlib

/-!
Shallow embedding of the dev-server core of this repository: the per-environment
module graph (`moduleGraph.ts`), the HMR propagator (`hmr.ts`) and the dependency
optimizer (`optimizer.ts`).  Module nodes live in an arena (`List` indexed by
`Nat`); JavaScript `Set` objects become insertion-ordered duplicate-free lists,
`Map` objects become association lists where the most recent binding shadows
older ones.  JavaScript `undefined`/`null` become `Option`.
-/

namespace Vite

/-- JS `Set.add`: append if absent (JS sets preserve insertion order). -/
def addToSet (l : List Nat) (x : Nat) : List Nat :=
  if x ∈ l then l else l ++ [x]

/-- JS `Set.delete`: remove an element. -/
def delFromSet (l : List Nat) (x : Nat) : List Nat :=
  l.filter (fun y => y ≠ x)

/-- JS `Map.set`: bind `k` to `v`, shadowing any previous binding. -/
def mapSet (l : List (String × Nat)) (k : String) (v : Nat) : List (String × Nat) :=
  (k, v) :: l.filter (fun p => p.1 ≠ k)

/-- JS `Map.delete`. -/
def mapDel (l : List (String × Nat)) (k : String) : List (String × Nat) :=
  l.filter (fun p => p.1 ≠ k)

/-- `new Set(results)` in JS: deduplicate keeping the first occurrence. -/
def dedup : List Nat → List Nat
  | [] => []
  | x :: xs => x :: (dedup xs).filter (fun y => y ≠ x)

/-- Modelled from the spec: `cleanUrl` of `shared/utils` (file absent from the
sources) strips the query and hash, i.e. everything from the first `?` or `#`. -/
def cleanUrl (url : String) : String :=
  String.mk (url.toList.takeWhile (fun c => c ≠ '?' ∧ c ≠ '#'))

/-- Modelled from the spec: `removeTimestampQuery` of `utils` (file absent from
the sources) strips the HMR `t=<timestamp>` query parameter. -/
def removeTimestampQuery (url : String) : String :=
  let clean := cleanUrl url
  let query := url.drop (clean.length + 1)
  if query.length + clean.length + 1 ≠ url.length then url
  else
    let params := (query.splitOn "&").filter (fun p => ¬ p.startsWith "t=")
    if params.isEmpty then clean
    else clean ++ "?" ++ String.intercalate "&" params

/-- Modelled from the spec: `removeImportQuery` of `utils` (file absent from the
sources) strips the `import` query parameter. -/
def removeImportQuery (url : String) : String :=
  let clean := cleanUrl url
  let query := url.drop (clean.length + 1)
  if query.length + clean.length + 1 ≠ url.length then url
  else
    let params := (query.splitOn "&").filter (fun p => p ≠ "import" ∧ ¬ p.startsWith "import=")
    if params.isEmpty then clean
    else clean ++ "?" ++ String.intercalate "&" params

/-- Modelled from the spec: `node:path`'s `extname` — the extension of the last
path segment, from its last `.` (empty when the segment has no dot past its
first character). -/
def extname (p : String) : String :=
  let base := String.mk ((p.toList.reverse.takeWhile (fun c => c ≠ '/')).reverse)
  let afterDot := base.toList.reverse.takeWhile (fun c => c ≠ '.')
  if afterDot.length + 1 ≥ base.length then ""
  else String.mk ('.' :: afterDot.reverse)

/-- Modelled from the spec: `isCSSRequest` of `plugins/css` (file absent from
the sources) — the request path ends in a CSS-language extension. -/
def isCSSRequest (url : String) : Bool :=
  let p := cleanUrl url
  [".css", ".less", ".sass", ".scss", ".styl", ".stylus", ".pcss", ".postcss", ".sss"].any
    (fun ext => p.endsWith ext)

/-- Modelled from the spec: `isDirectCSSRequest` of `plugins/css` — a CSS
request carrying the `direct` query parameter. -/
def isDirectCSSRequest (url : String) : Bool :=
  isCSSRequest url && ((url.splitOn "?").drop 1).any (fun q => (q.splitOn "&").any (fun p => p = "direct" ∨ p.startsWith "direct="))

/-- Modelled from the spec: the cached post-transform payload of
`transformRequest` (file absent from the sources); the graph only inspects its
`etag` and stores it opaquely. -/
structure TransformResult where
  code : String
  etag : Option String := none
deriving Repr, DecidableEq, Inhabited

/-- `invalidationState` of a module node: `undefined`, `'HARD_INVALIDATED'`, or
the previous `transformResult` (soft-invalidated). -/
inductive InvalidationState where
  | fresh
  | hard
  | soft (prev : TransformResult)
deriving Repr, DecidableEq, Inhabited

/-- Rollup's `PartialResolvedId` as used by the injected resolver. -/
structure PartialResolvedId where
  id : String
  meta : Option String := none
deriving Repr, DecidableEq, Inhabited

inductive ModType where
  | js
  | css
deriving Repr, DecidableEq, Inhabited

/-- `EnvironmentModuleNode` of `moduleGraph.ts`.  Edge sets hold arena indices
of other nodes; `ssrModule`/`ssrError` only record presence (their contents are
opaque runtime objects). -/
structure EnvironmentModuleNode where
  environment : String
  url : String
  id : Option String := none
  file : Option String := none
  type : ModType
  info : Option String := none
  meta : Option String := none
  importers : List Nat := []
  importedModules : List Nat := []
  acceptedHmrDeps : List Nat := []
  acceptedHmrExports : Option (List String) := none
  importedBindings : Option (List (String × List String)) := none
  isSelfAccepting : Option Bool := none
  transformResult : Option TransformResult := none
  ssrModule : Bool := false
  ssrError : Bool := false
  lastHMRTimestamp : Nat := 0
  lastInvalidationTimestamp : Nat := 0
  invalidationState : InvalidationState := .fresh
  staticImportedUrls : Option (List String) := none
deriving Repr, DecidableEq, Inhabited

/-- The `EnvironmentModuleNode` constructor. -/
def mkModuleNode (url : String) (environment : String) (setIsSelfAccepting : Bool := true) :
    EnvironmentModuleNode :=
  { environment := environment
    url := url
    type := if isDirectCSSRequest url then .css else .js
    isSelfAccepting := if setIsSelfAccepting then some false else none }

/-- `EnvironmentModuleGraph` of `moduleGraph.ts`.  Nodes are stored in an arena
(`nodes`), the four lookup tables map strings to arena indices.  The injected
`_resolveId` function is passed explicitly to the operations that use it. -/
structure EnvironmentModuleGraph where
  environment : String
  nodes : List EnvironmentModuleNode := []
  urlToModuleMap : List (String × Nat) := []
  idToModuleMap : List (String × Nat) := []
  etagToModuleMap : List (String × Nat) := []
  fileToModulesMap : List (String × List Nat) := []
  unresolvedUrlToModuleMap : List (String × Nat) := []
deriving Repr, DecidableEq, Inhabited

namespace EnvironmentModuleGraph

def nodeAt (g : EnvironmentModuleGraph) (i : Nat) : EnvironmentModuleNode :=
  g.nodes.getD i default

def setNode (g : EnvironmentModuleGraph) (i : Nat) (n : EnvironmentModuleNode) :
    EnvironmentModuleGraph :=
  { g with nodes := g.nodes.set i n }

def modifyNode (g : EnvironmentModuleGraph) (i : Nat)
    (f : EnvironmentModuleNode → EnvironmentModuleNode) : EnvironmentModuleGraph :=
  g.setNode i (f (g.nodeAt i))

/-- Register `i` under `file` in a file-to-modules table (creating the set on
miss). -/
def fileMapInsert (m : List (String × List Nat)) (file : String) (i : Nat) :
    List (String × List Nat) :=
  (file, addToSet ((m.lookup file).getD []) i) :: m.filter (fun p => p.1 ≠ file)

/-- Register `i` under `file` in `fileToModulesMap` (creating the set on miss). -/
def fileMapAdd (g : EnvironmentModuleGraph) (file : String) (i : Nat) :
    EnvironmentModuleGraph :=
  { g with fileToModulesMap := fileMapInsert g.fileToModulesMap file i }

/-- `_resolveUrl`: resolve via the injected resolver, falling back to the raw
url, and align the url's extension with the resolved id's. -/
def resolveUrl0 (resolveId : String → Option PartialResolvedId)
    (url : String) (alreadyResolved : Option PartialResolvedId := none) :
    String × String × Option String :=
  let resolved := alreadyResolved.orElse (fun _ => resolveId url)
  let resolvedId := match resolved with
    | some r => if r.id = "" then url else r.id
    | none => url
  let url :=
    if url ≠ resolvedId ∧ ¬ url.contains (Char.ofNat 0) ∧ ¬ url.startsWith "virtual:" then
      let ext := extname (cleanUrl resolvedId)
      if ext ≠ "" then
        let pathname := cleanUrl url
        if ¬ pathname.endsWith ext then pathname ++ ext ++ url.drop pathname.length else url
      else url
    else url
  (url, resolvedId, resolved.bind (fun r => r.meta))

/-- `_ensureEntryFromUrl` / `ensureEntryFromUrl` (single-caller semantics: the
in-flight-promise cache collapses to a plain url → node cache).  Returns the
updated graph and the node's arena index. -/
def ensureEntryFromUrl (resolveId : String → Option PartialResolvedId)
    (g : EnvironmentModuleGraph) (rawUrl : String) (setIsSelfAccepting : Bool := true) :
    EnvironmentModuleGraph × Nat :=
  let rawUrl := removeImportQuery (removeTimestampQuery rawUrl)
  match g.unresolvedUrlToModuleMap.lookup rawUrl with
  | some m => (g, m)
  | none =>
    let r := resolveUrl0 resolveId rawUrl
    let url := r.1
    let resolvedId := r.2.1
    let meta := r.2.2
    match g.idToModuleMap.lookup resolvedId with
    | some m =>
      let g :=
        if (g.urlToModuleMap.lookup url).isNone then
          { g with urlToModuleMap := mapSet g.urlToModuleMap url m }
        else g
      ({ g with unresolvedUrlToModuleMap := mapSet g.unresolvedUrlToModuleMap rawUrl m }, m)
    | none =>
      let mid := g.nodes.length
      let node := mkModuleNode url g.environment setIsSelfAccepting
      let node := { node with meta := meta, id := some resolvedId, file := some (cleanUrl resolvedId) }
      let g := { g with
        nodes := g.nodes ++ [node]
        urlToModuleMap := mapSet g.urlToModuleMap url mid
        idToModuleMap := mapSet g.idToModuleMap resolvedId mid }
      let g := g.fileMapAdd (cleanUrl resolvedId) mid
      ({ g with unresolvedUrlToModuleMap := mapSet g.unresolvedUrlToModuleMap rawUrl mid }, mid)

/-- `updateModuleTransformResult`: write `transformResult` and maintain the
etag index (client environment only). -/
def updateModuleTransformResult (g : EnvironmentModuleGraph) (i : Nat)
    (result : Option TransformResult) : EnvironmentModuleGraph :=
  let g :=
    if g.environment = "client" then
      let g := match (g.nodeAt i).transformResult.bind (fun r => r.etag) with
        | some prevEtag => { g with etagToModuleMap := mapDel g.etagToModuleMap prevEtag }
        | none => g
      match result.bind (fun r => r.etag) with
      | some e => { g with etagToModuleMap := mapSet g.etagToModuleMap e i }
      | none => g
    else g
  g.modifyNode i (fun n => { n with transformResult := result })

end EnvironmentModuleGraph

/-- The soft-invalidation assignment at the head of `invalidateModule`:
`mod.invalidationState ??= mod.transformResult ?? 'HARD_INVALIDATED'` when
soft, else `mod.invalidationState = 'HARD_INVALIDATED'`. -/
def nextInvalidationState (mod : EnvironmentModuleNode) (softInvalidate : Bool) :
    InvalidationState :=
  if softInvalidate then
    match mod.invalidationState with
    | .fresh =>
      match mod.transformResult with
      | some tr => .soft tr
      | none => .hard
    | s => s
  else .hard

/-- The per-node mutation of `invalidateModule`: write the new invalidation
state, bump the timestamp (`lastHMRTimestamp` for HMR,
`lastInvalidationTimestamp` otherwise), and clear `transformResult`,
`ssrModule` and `ssrError`. -/
def invalidatedNode (mod : EnvironmentModuleNode) (timestamp : Nat)
    (isHmr softInvalidate : Bool) : EnvironmentModuleNode :=
  let mod1 := { mod with invalidationState := nextInvalidationState mod softInvalidate }
  let mod2 :=
    if isHmr then { mod1 with lastHMRTimestamp := timestamp }
    else { mod1 with lastInvalidationTimestamp := timestamp }
  { mod2 with transformResult := none, ssrModule := false, ssrError := false }

/-- The mutation `invalidateModule` applies to the invalidated node itself:
drop the etag index entry and rewrite the node through `invalidatedNode`. -/
def invalidateNodeStep (g : EnvironmentModuleGraph) (i : Nat) (timestamp : Nat)
    (isHmr : Bool) (softInvalidate : Bool) : EnvironmentModuleGraph :=
  let g' :=
    match (g.nodeAt i).transformResult.bind (fun r => r.etag) with
    | some etag => { g with etagToModuleMap := mapDel g.etagToModuleMap etag }
    | none => g
  g'.setNode i (invalidatedNode (g.nodeAt i) timestamp isHmr softInvalidate)

mutual

/-- `invalidateModule`.  The `fuel` argument bounds the recursion depth (absent
in the source, which relies on the `seen` set); every claim below is either
fuel-polymorphic or supplies enough fuel. -/
def invalidateModule (fuel : Nat) (g : EnvironmentModuleGraph) (i : Nat)
    (seen : List Nat) (timestamp : Nat) (isHmr : Bool) (softInvalidate : Bool) :
    EnvironmentModuleGraph × List Nat :=
  match fuel with
  | 0 => (g, seen)
  | fuel + 1 =>
    let prevInvalidationState := (g.nodeAt i).invalidationState
    let newState := nextInvalidationState (g.nodeAt i) softInvalidate
    if seen.contains i ∧ prevInvalidationState = newState then (g, seen)
    else
      invalidateImporters fuel (invalidateNodeStep g i timestamp isHmr softInvalidate)
        (g.nodeAt i).importers i (g.nodeAt i).url (addToSet seen i)
        timestamp isHmr softInvalidate
termination_by (fuel, 0, 0)

/-- The `mod.importers.forEach` recursion loop of `invalidateModule`. -/
def invalidateImporters (fuel : Nat) (g : EnvironmentModuleGraph) (imps : List Nat)
    (m : Nat) (murl : String) (seen : List Nat) (timestamp : Nat) (isHmr : Bool)
    (softInvalidate : Bool) : EnvironmentModuleGraph × List Nat :=
  match imps with
  | [] => (g, seen)
  | imp :: rest =>
    let p :=
      if (g.nodeAt imp).acceptedHmrDeps.contains m then (g, seen)
      else
        let shouldSoftInvalidateImporter :=
          (match (g.nodeAt imp).staticImportedUrls with
            | some urls => urls.contains murl
            | none => false) || softInvalidate
        invalidateModule fuel g imp seen timestamp isHmr shouldSoftInvalidateImporter
    invalidateImporters fuel p.1 rest m murl p.2 timestamp isHmr softInvalidate
termination_by (fuel, 1, imps.length + 1)

end

namespace EnvironmentModuleGraph

/-- `onFileChange`: hard-invalidate every module of the changed file with a
fresh `seen` set.  The timestamp (`Date.now()` in the source) is a parameter. -/
def onFileChange (fuel : Nat) (g : EnvironmentModuleGraph) (file : String)
    (timestamp : Nat) : EnvironmentModuleGraph :=
  match g.fileToModulesMap.lookup file with
  | none => g
  | some mods =>
    (mods.foldl (fun (p : EnvironmentModuleGraph × List Nat) m =>
      invalidateModule fuel p.1 m p.2 timestamp false false) (g, [])).1

/-- `invalidateAll`: invalidate every node of `idToModuleMap` with a shared
fresh `seen` set. -/
def invalidateAll (fuel : Nat) (g : EnvironmentModuleGraph) (timestamp : Nat) :
    EnvironmentModuleGraph :=
  ((g.idToModuleMap.map (fun p => p.2)).foldl
    (fun (p : EnvironmentModuleGraph × List Nat) m =>
      invalidateModule fuel p.1 m p.2 timestamp false false) (g, [])).1

end EnvironmentModuleGraph

namespace EnvironmentModuleGraph

/-- `dep.importers.add(mod)`. -/
def addImporterTo (g : EnvironmentModuleGraph) (dep m : Nat) : EnvironmentModuleGraph :=
  g.modifyNode dep (fun n => { n with importers := addToSet n.importers m })

/-- `dep.importers.delete(mod)`. -/
def delImporterFrom (g : EnvironmentModuleGraph) (dep m : Nat) : EnvironmentModuleGraph :=
  g.modifyNode dep (fun n => { n with importers := delFromSet n.importers m })

/-- One entry of the `importedModules` resolution loop of `updateModuleInfo`:
a string entry is resolved through `ensureEntryFromUrl`, and either way the
module is added to `dep.importers`; the dep is appended to the ordered
resolution results. -/
def resolveImportedEntry (resolveId : String → Option PartialResolvedId) (m : Nat)
    (acc : EnvironmentModuleGraph × List Nat) (e : Sum String Nat) :
    EnvironmentModuleGraph × List Nat :=
  match e with
  | .inl s =>
    let p := ensureEntryFromUrl resolveId acc.1 s
    (addImporterTo p.1 p.2 m, acc.2 ++ [p.2])
  | .inr dep => (addImporterTo acc.1 dep m, acc.2 ++ [dep])

/-- One entry of the `acceptedModules` resolution loop of `updateModuleInfo`
(resolution only, no edge updates). -/
def resolveAcceptedEntry (resolveId : String → Option PartialResolvedId)
    (acc : EnvironmentModuleGraph × List Nat) (e : Sum String Nat) :
    EnvironmentModuleGraph × List Nat :=
  match e with
  | .inl s =>
    let p := ensureEntryFromUrl resolveId acc.1 s
    (p.1, acc.2 ++ [p.2])
  | .inr dep => (acc.1, acc.2 ++ [dep])

/-- `updateModuleInfo`: replace the module's edge sets from its latest imports
information.  A `Sum.inl` entry is an unresolved url (the source's string
entries), a `Sum.inr` entry an existing node.  Returns the updated graph and
the "no longer imported" set. -/
def updateModuleInfo (resolveId : String → Option PartialResolvedId)
    (g : EnvironmentModuleGraph) (m : Nat)
    (importedModules : List (Sum String Nat))
    (importedBindings : Option (List (String × List String)))
    (acceptedModules : List (Sum String Nat))
    (acceptedExports : Option (List String))
    (isSelfAccepting : Bool)
    (staticImportedUrls : Option (List String) := none) :
    EnvironmentModuleGraph × List Nat :=
  let g := g.modifyNode m (fun n => { n with isSelfAccepting := some isSelfAccepting })
  let prevImports := (g.nodeAt m).importedModules
  let p1 := importedModules.foldl (resolveImportedEntry resolveId m) (g, [])
  let nextImports := dedup p1.2
  let g := p1.1.modifyNode m (fun n => { n with importedModules := nextImports })
  let p2 := prevImports.foldl
    (fun (p : EnvironmentModuleGraph × List Nat) dep =>
      if (p.1.nodeAt m).importedModules.contains dep then p
      else
        let g := delImporterFrom p.1 dep m
        if (g.nodeAt dep).importers.isEmpty then (g, p.2 ++ [dep]) else (g, p.2))
    (g, [])
  let p3 := acceptedModules.foldl (resolveAcceptedEntry resolveId) (p2.1, [])
  let g := p3.1.modifyNode m (fun n => { n with
    acceptedHmrDeps := dedup p3.2
    staticImportedUrls := staticImportedUrls
    acceptedHmrExports := acceptedExports
    importedBindings := importedBindings })
  (g, p2.2)

end EnvironmentModuleGraph

/-- The unlink branch of `handleFileAddUnlink` (hmr.ts): for every module of
the deleted file, remove it from the `importers` of each module it imports.
(The deleted module's own `importedModules` set is left as is.) -/
def handleFileUnlinkEdges (g : EnvironmentModuleGraph) (file : String) :
    EnvironmentModuleGraph :=
  let modules := (g.fileToModulesMap.lookup file).getD []
  modules.foldl (fun g dm =>
    (g.nodeAt dm).importedModules.foldl
      (fun g im => g.delImporterFrom im dm) g) g

/-- All edge lists mention only arena indices that exist (in the source the
edge sets hold live node objects, so this holds by construction). -/
def edgesValid (g : EnvironmentModuleGraph) : Bool :=
  g.nodes.all (fun n =>
    (n.importers ++ n.importedModules).all (fun j => j < g.nodes.length))

/-- All lookup tables point at arena indices that exist. -/
def mapsValid (g : EnvironmentModuleGraph) : Bool :=
  g.idToModuleMap.all (fun p => p.2 < g.nodes.length) &&
  g.urlToModuleMap.all (fun p => p.2 < g.nodes.length) &&
  g.unresolvedUrlToModuleMap.all (fun p => p.2 < g.nodes.length) &&
  g.etagToModuleMap.all (fun p => p.2 < g.nodes.length) &&
  g.fileToModulesMap.all (fun p => p.2.all (fun j => j < g.nodes.length))

/-- Edge symmetry of the module graph:
`b ∈ a.importedModules ⇔ a ∈ b.importers`. -/
def edgeSymmetric (g : EnvironmentModuleGraph) : Bool :=
  (List.range g.nodes.length).all (fun a =>
    (List.range g.nodes.length).all (fun b =>
      ((g.nodeAt a).importedModules.contains b) = ((g.nodeAt b).importers.contains a)))

/-- The direction of edge symmetry that survives an unlink:
`a ∈ b.importers → b ∈ a.importedModules`. -/
def edgeHalfSymmetric (g : EnvironmentModuleGraph) : Bool :=
  (List.range g.nodes.length).all (fun a =>
    (List.range g.nodes.length).all (fun b =>
      !((g.nodeAt b).importers.contains a) || ((g.nodeAt a).importedModules.contains b)))

/-- `PropagationBoundary` of hmr.ts. -/
structure PropagationBoundary where
  boundary : Nat
  acceptedVia : Nat
  isWithinCircularImport : Bool
deriving Repr, DecidableEq, Inhabited

/-- `areAllImportsAccepted` of hmr.ts: every consumed binding is an accepted
export. -/
def areAllImportsAccepted (importedBindings : List String)
    (acceptedExports : List String) : Bool :=
  importedBindings.all (fun binding => acceptedExports.contains binding)

mutual

/-- `isNodeWithinCircularImports` of hmr.ts: a secondary DFS along importer
edges looking for an ancestor of the original chain.  `fuel` bounds the
recursion depth (`none` = out of fuel; `circ_fuel_sufficient` below shows
`|V| + 1` always suffices). -/
def isNodeWithinCircularImports (g : EnvironmentModuleGraph) (fuel : Nat)
    (node : Nat) (nodeChain : List Nat) (currentChain : List Nat)
    (traversedModules : List Nat) : Option (Bool × List Nat) :=
  match fuel with
  | 0 => none
  | fuel + 1 =>
    if traversedModules.contains node then some (false, traversedModules)
    else
      circularImporterLoop g fuel (g.nodeAt node).importers node nodeChain
        currentChain (addToSet traversedModules node)
termination_by (fuel, 0, 0)

/-- The `node.importers` loop of `isNodeWithinCircularImports`: self-edges and
CSS importers are skipped, an importer inside `nodeChain` means a circle, and
other importers not yet in `currentChain` are searched recursively. -/
def circularImporterLoop (g : EnvironmentModuleGraph) (fuel : Nat)
    (imps : List Nat) (node : Nat) (nodeChain : List Nat) (currentChain : List Nat)
    (traversedModules : List Nat) : Option (Bool × List Nat) :=
  match imps with
  | [] => some (false, traversedModules)
  | importer :: rest =>
    if importer = node then
      circularImporterLoop g fuel rest node nodeChain currentChain traversedModules
    else if isCSSRequest (g.nodeAt importer).url then
      circularImporterLoop g fuel rest node nodeChain currentChain traversedModules
    else if nodeChain.contains importer then some (true, traversedModules)
    else if currentChain.contains importer then
      circularImporterLoop g fuel rest node nodeChain currentChain traversedModules
    else
      match isNodeWithinCircularImports g fuel importer nodeChain
        (currentChain ++ [importer]) traversedModules with
      | none => none
      | some (true, tr) => some (true, tr)
      | some (false, tr) => circularImporterLoop g fuel rest node nodeChain currentChain tr
termination_by (fuel, 1, imps.length + 1)

end

/-- `isNodeWithinCircularImports` at its call sites in `propagateUpdate`, with
the source's default arguments (`currentChain = [node]`, fresh traversed set)
and enough fuel (`circ_fuel_sufficient` below shows the default is never
hit on well-formed graphs). -/
def isNodeWithinCircularImportsB (g : EnvironmentModuleGraph) (node : Nat)
    (nodeChain : List Nat) : Bool :=
  ((isNodeWithinCircularImports g (g.nodes.length + 1) node nodeChain [node] []).getD
    (false, [])).1

/-- Truthiness of `node.id` (a nullable string) in hmr.ts. -/
def idTruthy (n : EnvironmentModuleNode) : Bool :=
  n.id.getD "" ≠ ""

/-- The partial-acceptance test of the importer walk: `node.id` is truthy, the
node has `acceptedHmrExports`, the importer has `importedBindings`, and every
binding the importer consumes from the node is an accepted export. -/
def importerBindingsSkipped (g : EnvironmentModuleGraph) (node importer : Nat) : Bool :=
  match (g.nodeAt node).id, (g.nodeAt node).acceptedHmrExports,
    (g.nodeAt importer).importedBindings with
  | some nid, some acceptedExports, some bindings =>
    if nid ≠ "" then
      match bindings.lookup nid with
      | some importedBindingsFromNode =>
        areAllImportsAccepted importedBindingsFromNode acceptedExports
      | none => false
    else false
  | _, _, _ => false

mutual

/-- `propagateUpdate` of hmr.ts.  The mutated `traversedModules` and
`boundaries` arrays are threaded through and returned next to the `hasDeadEnd`
result; `fuel` bounds the recursion depth (`none` = out of fuel). -/
def propagateUpdate (g : EnvironmentModuleGraph) (fuel : Nat) (node : Nat)
    (traversedModules : List Nat) (boundaries : List PropagationBoundary)
    (currentChain : List Nat) : Option (Bool × List Nat × List PropagationBoundary) :=
  match fuel with
  | 0 => none
  | fuel + 1 =>
    if traversedModules.contains node then some (false, traversedModules, boundaries)
    else
      let traversedModules := addToSet traversedModules node
      let nd := g.nodeAt node
      if idTruthy nd ∧ nd.isSelfAccepting = none then
        some (false, traversedModules, boundaries)
      else if nd.isSelfAccepting = some true then
        let boundaries := boundaries ++
          [⟨node, node, isNodeWithinCircularImportsB g node currentChain⟩]
        match propagateCssImporters g fuel nd.importers traversedModules boundaries
          currentChain with
        | none => none
        | some (tr, bs) => some (false, tr, bs)
      else if nd.acceptedHmrExports.isSome then
        let boundaries := boundaries ++
          [⟨node, node, isNodeWithinCircularImportsB g node currentChain⟩]
        propagateImporters g fuel nd.importers node traversedModules boundaries currentChain
      else if nd.importers.isEmpty then
        some (true, traversedModules, boundaries)
      else if ¬ isCSSRequest nd.url ∧ nd.importers.all (fun i => isCSSRequest (g.nodeAt i).url) then
        some (true, traversedModules, boundaries)
      else
        propagateImporters g fuel nd.importers node traversedModules boundaries currentChain
termination_by (fuel, 0, 0)

/-- The CSS-importers walk inside the self-accepting branch of
`propagateUpdate` (PostCSS-style registrations): recursion results are
discarded, but their effects on the traversed set and boundaries persist. -/
def propagateCssImporters (g : EnvironmentModuleGraph) (fuel : Nat)
    (imps : List Nat) (traversedModules : List Nat)
    (boundaries : List PropagationBoundary) (currentChain : List Nat) :
    Option (List Nat × List PropagationBoundary) :=
  match imps with
  | [] => some (traversedModules, boundaries)
  | importer :: rest =>
    if isCSSRequest (g.nodeAt importer).url ∧ ¬ currentChain.contains importer then
      match propagateUpdate g fuel importer traversedModules boundaries
        (currentChain ++ [importer]) with
      | none => none
      | some (_, tr, bs) => propagateCssImporters g fuel rest tr bs currentChain
    else propagateCssImporters g fuel rest traversedModules boundaries currentChain
termination_by (fuel, 1, imps.length + 1)

/-- The main importer walk of `propagateUpdate`: an importer that explicitly
accepts the node becomes a boundary; an importer consuming only accepted
exports (`importerBindingsSkipped`) is skipped; otherwise the update
propagates into importers not already on the chain, and a dead end bubbles
up. -/
def propagateImporters (g : EnvironmentModuleGraph) (fuel : Nat)
    (imps : List Nat) (node : Nat) (traversedModules : List Nat)
    (boundaries : List PropagationBoundary) (currentChain : List Nat) :
    Option (Bool × List Nat × List PropagationBoundary) :=
  match imps with
  | [] => some (false, traversedModules, boundaries)
  | importer :: rest =>
    let subChain := currentChain ++ [importer]
    if (g.nodeAt importer).acceptedHmrDeps.contains node then
      let boundaries := boundaries ++
        [⟨importer, node, isNodeWithinCircularImportsB g importer subChain⟩]
      propagateImporters g fuel rest node traversedModules boundaries currentChain
    else if importerBindingsSkipped g node importer then
      propagateImporters g fuel rest node traversedModules boundaries currentChain
    else if currentChain.contains importer then
      propagateImporters g fuel rest node traversedModules boundaries currentChain
    else
      match propagateUpdate g fuel importer traversedModules boundaries subChain with
      | none => none
      | some (true, tr, bs) => some (true, tr, bs)
      | some (false, tr, bs) => propagateImporters g fuel rest node tr bs currentChain
termination_by (fuel, 1, imps.length + 1)

end

/-- `propagateUpdate` as entered from `updateModules`: fresh boundaries and the
source's default `currentChain = [node]`. -/
def propagateUpdateFrom (g : EnvironmentModuleGraph) (fuel : Nat) (node : Nat)
    (traversedModules : List Nat) : Option (Bool × List Nat × List PropagationBoundary) :=
  propagateUpdate g fuel node traversedModules [] [node]

/-- `LexerState` of the `accept(...)` lexer in hmr.ts. -/
inductive LexerState where
  | inCall
  | inSingleQuoteString
  | inDoubleQuoteString
  | inTemplateString
  | inArray
deriving Repr, DecidableEq, Inhabited

/-- One `{ url, start, end }` record collected by the lexer. -/
structure UrlRecord where
  url : String
  startPos : Nat
  endPos : Nat
deriving Repr, DecidableEq, Inhabited

def backtickChar : Char := Char.ofNat 96

def openBraceChar : Char := Char.ofNat 123

/-- `addDep` of `lexAcceptedHmrDeps`. -/
def addDep (urls : List UrlRecord) (currentDep : String) (i : Nat) : List UrlRecord :=
  urls ++ [{ url := currentDep, startPos := i - currentDep.length - 1, endPos := i + 1 }]

/-- The character loop of `lexAcceptedHmrDeps`, recursing over the remaining
characters while tracking the absolute index `i`.  A thrown lex `error(pos)`
becomes `Except.error pos`. -/
def lexLoop : List Char → Nat → LexerState → LexerState → String → List UrlRecord →
    Except Nat (Bool × List UrlRecord)
  | [], _, _, _, _, urls => .ok (false, urls)
  | c :: rest, i, state, prevState, currentDep, urls =>
    match state with
    | .inCall | .inArray =>
      if c = '\'' then lexLoop rest (i + 1) .inSingleQuoteString state currentDep urls
      else if c = '"' then lexLoop rest (i + 1) .inDoubleQuoteString state currentDep urls
      else if c = backtickChar then lexLoop rest (i + 1) .inTemplateString state currentDep urls
      else if c.isWhitespace then lexLoop rest (i + 1) state prevState currentDep urls
      else if state = .inCall then
        if c = '[' then lexLoop rest (i + 1) .inArray prevState currentDep urls
        else .ok (true, urls)
      else if c = ']' then .ok (false, urls)
      else if c = ',' then lexLoop rest (i + 1) state prevState currentDep urls
      else .error i
    | .inSingleQuoteString =>
      if c = '\'' then
        let urls := addDep urls currentDep i
        if prevState = .inCall then .ok (false, urls)
        else lexLoop rest (i + 1) prevState prevState "" urls
      else lexLoop rest (i + 1) state prevState (currentDep.push c) urls
    | .inDoubleQuoteString =>
      if c = '"' then
        let urls := addDep urls currentDep i
        if prevState = .inCall then .ok (false, urls)
        else lexLoop rest (i + 1) prevState prevState "" urls
      else lexLoop rest (i + 1) state prevState (currentDep.push c) urls
    | .inTemplateString =>
      if c = backtickChar then
        let urls := addDep urls currentDep i
        if prevState = .inCall then .ok (false, urls)
        else lexLoop rest (i + 1) prevState prevState "" urls
      else if c = '$' ∧ rest.head? = some openBraceChar then .error i
      else lexLoop rest (i + 1) state prevState (currentDep.push c) urls

/-- `lexAcceptedHmrDeps` of hmr.ts: lex the arguments of an `accept(` call
starting right after the opening parenthesis at index `start`.  Returns
`selfAccepts` together with the collected url records, or the position of a
lex error. -/
def lexAcceptedHmrDeps (code : String) (start : Nat) :
    Except Nat (Bool × List UrlRecord) :=
  lexLoop (code.toList.drop start) start .inCall .inCall "" []

/-- `OptimizedDepInfo` of the optimizer metadata (the `processing` promise is
modelled by the id of the batch future it belongs to). -/
structure OptimizedDepInfo where
  id : String
  file : String := ""
  src : Option String := none
  fileHash : Option String := none
  browserHash : Option String := none
  needsInterop : Option Bool := none
  processing : Option Nat := none
deriving Repr, DecidableEq, Inhabited

/-- `DepOptimizationMetadata`: the committed optimizer metadata plus the three
dep maps. -/
structure DepOptimizationMetadata where
  hash : String
  browserHash : String
  optimized : List (String × OptimizedDepInfo) := []
  chunks : List (String × OptimizedDepInfo) := []
  discovered : List (String × OptimizedDepInfo) := []
deriving Repr, DecidableEq, Inhabited

/-- The mutable closure state of `createDepsOptimizer` that the re-bundling
claims are about.  Promises are modelled by numeric ids: a fresh id is drawn
from `nextFutureId`, and resolving a future appends its id to
`resolvedFutures`. -/
structure OptimizerState where
  metadata : DepOptimizationMetadata
  newDepsDiscovered : Bool := false
  depOptimizationProcessing : Nat := 0
  depOptimizationProcessingQueue : List Nat := []
  resolvedFutures : List Nat := []
  nextFutureId : Nat := 1
  currentlyProcessing : Bool := false
  firstRunCalled : Bool := false
  sentFullReload : Bool := false
  logs : List String := []
deriving Repr, DecidableEq, Inhabited

/-- `resolveEnqueuedProcessingPromises`: resolve every queued batch future and
clear the queue. -/
def resolveEnqueuedProcessingPromises (st : OptimizerState) : OptimizerState :=
  { st with
    resolvedFutures := st.resolvedFutures ++ st.depOptimizationProcessingQueue
    depOptimizationProcessingQueue := [] }

/-- The synchronous preparation of `runOptimizer` before the bundler is
invoked: snapshot `newDeps = optimized ∪ discovered` (cloning the info
objects, discarding the `processing` promise of discovered ones), reset
`newDepsDiscovered`, push the current batch future onto the queue and rotate
in a fresh one. -/
def runOptimizerPrepare (st : OptimizerState) :
    OptimizerState × List (String × OptimizedDepInfo) :=
  let newDeps :=
    st.metadata.optimized.map (fun p => (p.1,
      match st.metadata.discovered.lookup p.1 with
      | some d => { d with processing := none }
      | none => p.2)) ++
    (st.metadata.discovered.filter
      (fun p => (st.metadata.optimized.lookup p.1).isNone)).map
      (fun p => (p.1, { p.2 with processing := none }))
  let st := { st with
    newDepsDiscovered := false
    currentlyProcessing := true
    depOptimizationProcessingQueue :=
      st.depOptimizationProcessingQueue ++ [st.depOptimizationProcessing]
    depOptimizationProcessing := st.nextFutureId
    nextFutureId := st.nextFutureId + 1 }
  (st, newDeps)

/-- `needsInteropMismatch`: the discovered deps whose declared `needsInterop`
differs from what the bundler inferred. -/
def needsInteropMismatch (discovered : List (String × OptimizedDepInfo))
    (newOptimized : List (String × OptimizedDepInfo)) : List String :=
  discovered.filterMap (fun p =>
    match newOptimized.lookup p.1 with
    | some depInfo =>
      if p.2.needsInterop ≠ none ∧ depInfo.needsInterop ≠ p.2.needsInterop then
        some p.1
      else none
    | none => none)

/-- The `needsReload` predicate of `runOptimizer`: an interop mismatch, a
changed input hash, or any previously optimized dep whose emitted `fileHash`
changed. -/
def needsReload (metadata : DepOptimizationMetadata)
    (newData : DepOptimizationMetadata) : Bool :=
  !(needsInteropMismatch metadata.discovered newData.optimized).isEmpty ||
  metadata.hash != newData.hash ||
  metadata.optimized.any (fun p =>
    p.2.fileHash != (match newData.optimized.lookup p.1 with
      | some i => i.fileHash
      | none => none))

/-- `commitProcessing` (the pure metadata part): port over deps discovered
after the snapshot, and when no reload is needed carry the previous
`browserHash` onto the new metadata, its chunks and every optimized dep so
that existing `?v=` urls stay valid. -/
def commitProcessing (metadata : DepOptimizationMetadata)
    (newData : DepOptimizationMetadata) (reload : Bool) : DepOptimizationMetadata :=
  let ported := metadata.discovered.filter (fun p => (newData.optimized.lookup p.1).isNone)
  let newData := { newData with discovered := newData.discovered ++ ported }
  if !reload then
    { newData with
      browserHash := metadata.browserHash
      chunks := newData.chunks.map (fun p =>
        (p.1, { p.2 with browserHash := some metadata.browserHash }))
      optimized := newData.optimized.map (fun p =>
        (p.1, { p.2 with browserHash :=
          match metadata.optimized.lookup p.1 with
          | some i => i.browserHash
          | none =>
            match metadata.discovered.lookup p.1 with
            | some i => i.browserHash
            | none => none })) }
  else newData

/-- The completion of a `runOptimizer` run once the bundler finished: on
success either commit (resolving all queued futures, emitting a full reload
when needed) or — when a reload would be needed but new deps were discovered
mid-run — cancel the batch; on a bundler failure log the error, resolve all
queued futures, clear `discovered` and return to idle without touching the
committed metadata. -/
def runOptimizerFinish (st : OptimizerState)
    (bundlerResult : Except String DepOptimizationMetadata) : OptimizerState :=
  let st' :=
    match bundlerResult with
    | .ok newData =>
      let reload := needsReload st.metadata newData
      if !reload then
        let st := { st with metadata := commitProcessing st.metadata newData reload }
        resolveEnqueuedProcessingPromises st
      else if st.newDepsDiscovered then
        st
      else
        let st := { st with metadata := commitProcessing st.metadata newData reload }
        let st := resolveEnqueuedProcessingPromises st
        { st with sentFullReload := true }
    | .error e =>
      let st := { st with logs := st.logs ++ [e] }
      let st := resolveEnqueuedProcessingPromises st
      { st with metadata := { st.metadata with discovered := [] } }
  { st' with currentlyProcessing := false }

/-! ### Basic facts about the graph arena -/

theorem nodeAt_setNode_self (g : EnvironmentModuleGraph) (i : Nat)
    (n : EnvironmentModuleNode) (h : i < g.nodes.length) :
    (g.setNode i n).nodeAt i = n := by
  simp [EnvironmentModuleGraph.setNode, EnvironmentModuleGraph.nodeAt, List.getD]
  rw [List.getElem?_set_self]
  · simp
  · exact h

theorem nodeAt_setNode_ne (g : EnvironmentModuleGraph) (i j : Nat)
    (n : EnvironmentModuleNode) (h : j ≠ i) :
    (g.setNode i n).nodeAt j = g.nodeAt j := by
  simp [EnvironmentModuleGraph.setNode, EnvironmentModuleGraph.nodeAt, List.getD,
    List.getElem?_set_ne h.symm]

theorem nodeAt_oob (g : EnvironmentModuleGraph) (i : Nat) (h : g.nodes.length ≤ i) :
    g.nodeAt i = default := by
  simp [EnvironmentModuleGraph.nodeAt, List.getD, List.getElem?_eq_none h]

theorem length_setNode (g : EnvironmentModuleGraph) (i : Nat) (n : EnvironmentModuleNode) :
    (g.setNode i n).nodes.length = g.nodes.length := by
  simp [EnvironmentModuleGraph.setNode]

/-! ### Invalidation preserves graph invariants

`invalidateModule` only ever rewrites single nodes through
`invalidateNodeStep` (plus the etag index).  Any predicate preserved by that
step is preserved by the whole recursion, for every fuel. -/

theorem invalidate_preserves (P : EnvironmentModuleGraph → Prop)
    (hstep : ∀ g i ts hmr soft, P g → P (invalidateNodeStep g i ts hmr soft)) :
    ∀ fuel : Nat,
      (∀ g i seen ts hmr soft, P g → P (invalidateModule fuel g i seen ts hmr soft).1) ∧
      (∀ imps g m murl seen ts hmr soft, P g →
        P (invalidateImporters fuel g imps m murl seen ts hmr soft).1) := by
  intro fuel
  induction fuel with
  | zero =>
    constructor
    · intro g i seen ts hmr soft h
      simpa [invalidateModule] using h
    · intro imps
      induction imps with
      | nil =>
        intro g m murl seen ts hmr soft h
        simpa [invalidateImporters] using h
      | cons imp rest ih =>
        intro g m murl seen ts hmr soft h
        rw [invalidateImporters]
        apply ih
        split
        · exact h
        · simpa [invalidateModule] using h
  | succ n ihn =>
    have hmain : ∀ g i seen ts hmr soft, P g →
        P (invalidateModule (n + 1) g i seen ts hmr soft).1 := by
      intro g i seen ts hmr soft h
      rw [invalidateModule]
      split
      · exact h
      · exact ihn.2 _ _ _ _ _ _ _ _ (hstep _ _ _ _ _ h)
    refine ⟨hmain, ?_⟩
    intro imps
    induction imps with
    | nil =>
      intro g m murl seen ts hmr soft h
      simpa [invalidateImporters] using h
    | cons imp rest ih =>
      intro g m murl seen ts hmr soft h
      rw [invalidateImporters]
      apply ih
      split
      · exact h
      · exact hmain _ _ _ _ _ _ h

/-- A node that is hard-invalidated with its transform result dropped. -/
def hardAndCleared (g : EnvironmentModuleGraph) (j : Nat) : Prop :=
  (g.nodeAt j).invalidationState = .hard ∧ (g.nodeAt j).transformResult = none

theorem nextInvalidationState_of_hard (m : EnvironmentModuleNode) (s : Bool)
    (h : m.invalidationState = .hard) : nextInvalidationState m s = .hard := by
  cases s <;> simp [nextInvalidationState, h]

theorem invalidatedNode_invalidationState (mod : EnvironmentModuleNode)
    (ts : Nat) (hmr soft : Bool) :
    (invalidatedNode mod ts hmr soft).invalidationState = nextInvalidationState mod soft := by
  cases hmr <;> simp [invalidatedNode]

theorem invalidatedNode_transformResult (mod : EnvironmentModuleNode)
    (ts : Nat) (hmr soft : Bool) :
    (invalidatedNode mod ts hmr soft).transformResult = none := by
  cases hmr <;> simp [invalidatedNode]

/-- The fields `invalidatedNode` leaves alone. -/
theorem invalidatedNode_frame (mod : EnvironmentModuleNode) (ts : Nat) (hmr soft : Bool) :
    (invalidatedNode mod ts hmr soft).url = mod.url ∧
    (invalidatedNode mod ts hmr soft).id = mod.id ∧
    (invalidatedNode mod ts hmr soft).file = mod.file ∧
    (invalidatedNode mod ts hmr soft).type = mod.type ∧
    (invalidatedNode mod ts hmr soft).info = mod.info ∧
    (invalidatedNode mod ts hmr soft).meta = mod.meta ∧
    (invalidatedNode mod ts hmr soft).importers = mod.importers ∧
    (invalidatedNode mod ts hmr soft).importedModules = mod.importedModules ∧
    (invalidatedNode mod ts hmr soft).acceptedHmrDeps = mod.acceptedHmrDeps ∧
    (invalidatedNode mod ts hmr soft).acceptedHmrExports = mod.acceptedHmrExports ∧
    (invalidatedNode mod ts hmr soft).importedBindings = mod.importedBindings ∧
    (invalidatedNode mod ts hmr soft).isSelfAccepting = mod.isSelfAccepting ∧
    (invalidatedNode mod ts hmr soft).staticImportedUrls = mod.staticImportedUrls := by
  cases hmr <;> simp [invalidatedNode]

theorem invalidateNodeStep_length (g : EnvironmentModuleGraph) (i ts : Nat)
    (hmr soft : Bool) :
    (invalidateNodeStep g i ts hmr soft).nodes.length = g.nodes.length := by
  unfold invalidateNodeStep
  split <;> simp [EnvironmentModuleGraph.setNode]

theorem nodeAt_invalidateNodeStep_self (g : EnvironmentModuleGraph) (i ts : Nat)
    (hmr soft : Bool) (h : i < g.nodes.length) :
    (invalidateNodeStep g i ts hmr soft).nodeAt i =
      invalidatedNode (g.nodeAt i) ts hmr soft := by
  unfold invalidateNodeStep
  split <;> rw [nodeAt_setNode_self] <;> exact h

theorem nodeAt_invalidateNodeStep_ne (g : EnvironmentModuleGraph) (i ts : Nat)
    (hmr soft : Bool) (j : Nat) (h : j ≠ i) :
    (invalidateNodeStep g i ts hmr soft).nodeAt j = g.nodeAt j := by
  unfold invalidateNodeStep
  split <;> rw [nodeAt_setNode_ne _ _ _ _ h] <;> simp [EnvironmentModuleGraph.nodeAt]

theorem nodeAt_invalidateNodeStep_oob (g : EnvironmentModuleGraph) (i ts : Nat)
    (hmr soft : Bool) (j : Nat) (h : g.nodes.length ≤ i) :
    (invalidateNodeStep g i ts hmr soft).nodeAt j = g.nodeAt j := by
  unfold invalidateNodeStep
  split <;>
    simp [EnvironmentModuleGraph.setNode, EnvironmentModuleGraph.nodeAt,
      List.set_eq_of_length_le h]

theorem invalidateNodeStep_keeps_hardAndCleared (g : EnvironmentModuleGraph)
    (i : Nat) (ts : Nat) (hmr soft : Bool) (j : Nat) (h : hardAndCleared g j) :
    hardAndCleared (invalidateNodeStep g i ts hmr soft) j := by
  obtain ⟨h1, h2⟩ := h
  by_cases hij : j = i
  · subst hij
    by_cases hlen : j < g.nodes.length
    · refine ⟨?_, ?_⟩
      · rw [nodeAt_invalidateNodeStep_self _ _ _ _ _ hlen,
          invalidatedNode_invalidationState, nextInvalidationState_of_hard _ _ h1]
      · rw [nodeAt_invalidateNodeStep_self _ _ _ _ _ hlen, invalidatedNode_transformResult]
    · rw [hardAndCleared, nodeAt_invalidateNodeStep_oob _ _ _ _ _ _ (by omega)]
      exact ⟨h1, h2⟩
  · rw [hardAndCleared, nodeAt_invalidateNodeStep_ne _ _ _ _ _ _ hij]
    exact ⟨h1, h2⟩

/-! ### Claim C8: bundler failure recovery -/

/-- C8: on any bundler failure during a re-bundle run, the optimizer logs the
error, clears the discovered dep map, resolves every queued batch future, and
returns to idle, leaving the committed metadata (hash, optimized, chunks — and
`browserHash`) unchanged and emitting no reload. -/
theorem C8_bundler_failure_recovery (st : OptimizerState) (e : String) :
    (runOptimizerFinish st (.error e)).metadata.discovered = [] ∧
    (runOptimizerFinish st (.error e)).depOptimizationProcessingQueue = [] ∧
    (runOptimizerFinish st (.error e)).resolvedFutures =
      st.resolvedFutures ++ st.depOptimizationProcessingQueue ∧
    (runOptimizerFinish st (.error e)).currentlyProcessing = false ∧
    (runOptimizerFinish st (.error e)).metadata.hash = st.metadata.hash ∧
    (runOptimizerFinish st (.error e)).metadata.browserHash = st.metadata.browserHash ∧
    (runOptimizerFinish st (.error e)).metadata.optimized = st.metadata.optimized ∧
    (runOptimizerFinish st (.error e)).metadata.chunks = st.metadata.chunks ∧
    (runOptimizerFinish st (.error e)).sentFullReload = st.sentFullReload ∧
    (runOptimizerFinish st (.error e)).logs = st.logs ++ [e] := by
  simp [runOptimizerFinish, resolveEnqueuedProcessingPromises]

/-! ### Claim C2: `updateModuleTransformResult` and `invalidationState` -/

/-- A hard-invalidated node used by the counterexamples below. -/
def hardNodeExample : EnvironmentModuleNode :=
  { environment := "client"
    url := "/a.js"
    id := some "/a.js"
    file := some "/a.js"
    type := .js
    invalidationState := .hard }

def hardGraphExample : EnvironmentModuleGraph :=
  { environment := "client", nodes := [hardNodeExample] }

def transformResultExample : TransformResult := { code := "code", etag := some "E" }

/-- C2 counterexample: `updateModuleTransformResult` does not clear
`invalidationState`.  Writing a transform result to a hard-invalidated node
leaves the node with `transformResult ≠ null` and
`invalidationState = 'HARD_INVALIDATED'`, falsifying both parts of the
claim at this input. -/
theorem C2_counterexample :
    ((hardGraphExample.updateModuleTransformResult 0 (some transformResultExample)).nodeAt 0).transformResult
        = some transformResultExample ∧
    ((hardGraphExample.updateModuleTransformResult 0 (some transformResultExample)).nodeAt 0).invalidationState
        = .hard := by
  constructor <;> rfl

/-- C2 amended: `updateModuleTransformResult` writes `transformResult` and
maintains the etag index, but leaves `invalidationState` untouched (the reset
to `undefined` happens in `transformRequest`, outside the module graph); hence
`transformResult ≠ null` does not imply `invalidationState = undefined`. -/
theorem C2_theorem (g : EnvironmentModuleGraph) (i : Nat)
    (result : Option TransformResult) (h : i < g.nodes.length) :
    ((g.updateModuleTransformResult i result).nodeAt i).invalidationState
      = (g.nodeAt i).invalidationState ∧
    ((g.updateModuleTransformResult i result).nodeAt i).transformResult = result := by
  have key : ∀ G : EnvironmentModuleGraph, G.nodes = g.nodes →
      ((G.modifyNode i (fun n => { n with transformResult := result })).nodeAt i).invalidationState
        = (g.nodeAt i).invalidationState ∧
      ((G.modifyNode i (fun n => { n with transformResult := result })).nodeAt i).transformResult
        = result := by
    intro G hG
    have hGn : G.nodeAt i = g.nodeAt i := by
      simp [EnvironmentModuleGraph.nodeAt, hG]
    rw [EnvironmentModuleGraph.modifyNode, nodeAt_setNode_self _ _ _ (by rw [hG]; exact h), hGn]
    exact ⟨rfl, rfl⟩
  simp only [EnvironmentModuleGraph.updateModuleTransformResult]
  split
  · split <;> split <;> exact key _ rfl
  · exact key _ rfl

/-- C2 witness: the amended statement at a concrete input. -/
theorem C2_witness :
    ((hardGraphExample.updateModuleTransformResult 0 (some transformResultExample)).nodeAt 0).invalidationState
      = (hardGraphExample.nodeAt 0).invalidationState ∧
    ((hardGraphExample.updateModuleTransformResult 0 (some transformResultExample)).nodeAt 0).transformResult
      = some transformResultExample :=
  C2_theorem hardGraphExample 0 (some transformResultExample) (by decide)

/-! ### Claim C4: hard invalidation wins and sticks -/

theorem nextInvalidationState_not_soft (m : EnvironmentModuleNode) :
    nextInvalidationState m false = .hard := by
  simp [nextInvalidationState]

/-- C4: after a hard invalidation of a node, a subsequent soft invalidation of
the same node does not restore a transform result: the node's
`invalidationState` stays `'HARD_INVALIDATED'` and its `transformResult` stays
`null` (for any fuel, timestamps, HMR flags and `seen` set of the second
call). -/
theorem C4_theorem (g : EnvironmentModuleGraph) (i : Nat)
    (fuel₁ fuel₂ ts₁ ts₂ : Nat) (seen₂ : List Nat) (hmr₁ hmr₂ : Bool)
    (hfuel : 0 < fuel₁) (hi : i < g.nodes.length) :
    ((invalidateModule fuel₂ (invalidateModule fuel₁ g i [] ts₁ hmr₁ false).1
        i seen₂ ts₂ hmr₂ true).1.nodeAt i).invalidationState = .hard ∧
    ((invalidateModule fuel₂ (invalidateModule fuel₁ g i [] ts₁ hmr₁ false).1
        i seen₂ ts₂ hmr₂ true).1.nodeAt i).transformResult = none := by
  have hstep : ∀ g' i' ts' hmr' soft', (fun G => hardAndCleared G i) g' →
      (fun G => hardAndCleared G i) (invalidateNodeStep g' i' ts' hmr' soft') :=
    fun g' i' ts' hmr' soft' h' =>
      invalidateNodeStep_keeps_hardAndCleared g' i' ts' hmr' soft' i h'
  have h1 : hardAndCleared (invalidateModule fuel₁ g i [] ts₁ hmr₁ false).1 i := by
    cases fuel₁ with
    | zero => omega
    | succ k =>
      rw [invalidateModule]
      simp only [List.contains_nil, Bool.false_eq_true, false_and, if_false]
      apply (invalidate_preserves _ hstep k).2
      constructor
      · rw [nodeAt_invalidateNodeStep_self _ _ _ _ _ hi,
          invalidatedNode_invalidationState, nextInvalidationState_not_soft]
      · rw [nodeAt_invalidateNodeStep_self _ _ _ _ _ hi, invalidatedNode_transformResult]
  exact (invalidate_preserves _ hstep fuel₂).1 _ _ _ _ _ _ h1

/-- A fresh one-node graph with a cached transform result. -/
def freshGraphExample : EnvironmentModuleGraph :=
  { environment := "client"
    nodes := [{ environment := "client"
                url := "/m.js"
                id := some "/m.js"
                file := some "/m.js"
                type := .js
                transformResult := some transformResultExample
                isSelfAccepting := some false }] }

/-- C4 witness: hard then soft invalidation at a concrete one-node graph. -/
theorem C4_witness :
    ((invalidateModule 3 (invalidateModule 2 freshGraphExample 0 [] 1 false false).1
        0 [] 2 false true).1.nodeAt 0).invalidationState = .hard ∧
    ((invalidateModule 3 (invalidateModule 2 freshGraphExample 0 [] 1 false false).1
        0 [] 2 false true).1.nodeAt 0).transformResult = none :=
  C4_theorem freshGraphExample 0 2 3 1 2 [] false false (by decide) (by decide)

/-! ### Claim C10: the frame of invalidation -/

/-- What invalidation must leave unchanged: the node count, the url/id/file
lookup tables, and — for every node — its identity (`url`, `id`, `file`,
`type`, `info`, `meta`), its edge sets, and its HMR acceptance metadata. -/
def invalidationFrame (g g' : EnvironmentModuleGraph) : Prop :=
  g'.nodes.length = g.nodes.length ∧
  g'.urlToModuleMap = g.urlToModuleMap ∧
  g'.idToModuleMap = g.idToModuleMap ∧
  g'.fileToModulesMap = g.fileToModulesMap ∧
  g'.unresolvedUrlToModuleMap = g.unresolvedUrlToModuleMap ∧
  ∀ j, (g'.nodeAt j).url = (g.nodeAt j).url ∧
    (g'.nodeAt j).id = (g.nodeAt j).id ∧
    (g'.nodeAt j).file = (g.nodeAt j).file ∧
    (g'.nodeAt j).type = (g.nodeAt j).type ∧
    (g'.nodeAt j).info = (g.nodeAt j).info ∧
    (g'.nodeAt j).meta = (g.nodeAt j).meta ∧
    (g'.nodeAt j).importers = (g.nodeAt j).importers ∧
    (g'.nodeAt j).importedModules = (g.nodeAt j).importedModules ∧
    (g'.nodeAt j).acceptedHmrDeps = (g.nodeAt j).acceptedHmrDeps ∧
    (g'.nodeAt j).acceptedHmrExports = (g.nodeAt j).acceptedHmrExports ∧
    (g'.nodeAt j).importedBindings = (g.nodeAt j).importedBindings ∧
    (g'.nodeAt j).isSelfAccepting = (g.nodeAt j).isSelfAccepting ∧
    (g'.nodeAt j).staticImportedUrls = (g.nodeAt j).staticImportedUrls

theorem invalidationFrame_refl (g : EnvironmentModuleGraph) : invalidationFrame g g := by
  refine ⟨rfl, rfl, rfl, rfl, rfl, fun j => ?_⟩
  refine ⟨rfl, rfl, rfl, rfl, rfl, rfl, rfl, rfl, rfl, rfl, rfl, rfl, rfl⟩

theorem invalidationFrame_trans {g₀ g₁ g₂ : EnvironmentModuleGraph}
    (h₁ : invalidationFrame g₀ g₁) (h₂ : invalidationFrame g₁ g₂) :
    invalidationFrame g₀ g₂ := by
  obtain ⟨a1, a2, a3, a4, a5, a6⟩ := h₁
  obtain ⟨b1, b2, b3, b4, b5, b6⟩ := h₂
  refine ⟨b1.trans a1, b2.trans a2, b3.trans a3, b4.trans a4, b5.trans a5, fun j => ?_⟩
  obtain ⟨c1, c2, c3, c4, c5, c6, c7, c8, c9, c10, c11, c12, c13⟩ := a6 j
  obtain ⟨d1, d2, d3, d4, d5, d6, d7, d8, d9, d10, d11, d12, d13⟩ := b6 j
  exact ⟨d1.trans c1, d2.trans c2, d3.trans c3, d4.trans c4, d5.trans c5, d6.trans c6,
    d7.trans c7, d8.trans c8, d9.trans c9, d10.trans c10, d11.trans c11, d12.trans c12,
    d13.trans c13⟩

theorem invalidateNodeStep_frame (g : EnvironmentModuleGraph) (i ts : Nat)
    (hmr soft : Bool) : invalidationFrame g (invalidateNodeStep g i ts hmr soft) := by
  refine ⟨invalidateNodeStep_length g i ts hmr soft, ?_, ?_, ?_, ?_, fun j => ?_⟩
  · unfold invalidateNodeStep
    split <;> rfl
  · unfold invalidateNodeStep
    split <;> rfl
  · unfold invalidateNodeStep
    split <;> rfl
  · unfold invalidateNodeStep
    split <;> rfl
  · by_cases hij : j = i
    · subst hij
      by_cases hlen : j < g.nodes.length
      · rw [nodeAt_invalidateNodeStep_self _ _ _ _ _ hlen]
        exact invalidatedNode_frame _ _ _ _
      · rw [nodeAt_invalidateNodeStep_oob _ _ _ _ _ _ (by omega)]
        refine ⟨rfl, rfl, rfl, rfl, rfl, rfl, rfl, rfl, rfl, rfl, rfl, rfl, rfl⟩
    · rw [nodeAt_invalidateNodeStep_ne _ _ _ _ _ _ hij]
      refine ⟨rfl, rfl, rfl, rfl, rfl, rfl, rfl, rfl, rfl, rfl, rfl, rfl, rfl⟩

theorem invalidateNodeStep_keeps_frame (g₀ : EnvironmentModuleGraph) :
    ∀ g i ts hmr soft, invalidationFrame g₀ g →
      invalidationFrame g₀ (invalidateNodeStep g i ts hmr soft) :=
  fun g i ts hmr soft h =>
    invalidationFrame_trans h (invalidateNodeStep_frame g i ts hmr soft)

/-- Folds of `invalidateModule` (as in `onFileChange` and `invalidateAll`)
preserve any step-preserved predicate. -/
theorem foldl_invalidate_preserves (P : EnvironmentModuleGraph → Prop)
    (hstep : ∀ g i ts hmr soft, P g → P (invalidateNodeStep g i ts hmr soft))
    (fuel ts : Nat) :
    ∀ (l : List Nat) (g : EnvironmentModuleGraph) (seen : List Nat), P g →
      P ((l.foldl (fun p m => invalidateModule fuel p.1 m p.2 ts false false)
        (g, seen)).1) := by
  intro l
  induction l with
  | nil => intro g seen h; simpa using h
  | cons x xs ih =>
    intro g seen h
    rw [List.foldl_cons]
    exact ih _ _ ((invalidate_preserves P hstep fuel).1 _ _ _ _ _ _ h)

/-- C10: `invalidateModule` — and therefore `onFileChange` and
`invalidateAll` — leaves every node's `url`, `id`, `file`, `type`, `info`,
`meta` and its edge sets (`importers`, `importedModules`, `acceptedHmrDeps`,
plus the acceptance metadata) unchanged, as well as the url/id/file lookup
tables; only the invalidation state, timestamps, transform results,
ssr fields and the etag index may change. -/
theorem C10_theorem (g : EnvironmentModuleGraph)
    (fuel i ts fuelF tsF fuelA tsA : Nat) (seen : List Nat) (hmr soft : Bool)
    (file : String) :
    invalidationFrame g (invalidateModule fuel g i seen ts hmr soft).1 ∧
    invalidationFrame g (g.onFileChange fuelF file tsF) ∧
    invalidationFrame g (g.invalidateAll fuelA tsA) := by
  have hstep := invalidateNodeStep_keeps_frame g
  refine ⟨(invalidate_preserves _ hstep fuel).1 _ _ _ _ _ _ (invalidationFrame_refl g), ?_, ?_⟩
  · unfold EnvironmentModuleGraph.onFileChange
    split
    · exact invalidationFrame_refl g
    · exact foldl_invalidate_preserves _ hstep fuelF tsF _ _ _ (invalidationFrame_refl g)
  · unfold EnvironmentModuleGraph.invalidateAll
    exact foldl_invalidate_preserves _ hstep fuelA tsA _ _ _ (invalidationFrame_refl g)

/-! ### Claim C5: reload-safe commits keep `browserHash` stable -/

/-- Looking up in the browser-hash-carrying map of `commitProcessing`. -/
theorem lookup_map_carry (old discovered : List (String × OptimizedDepInfo)) (k : String) :
    ∀ l : List (String × OptimizedDepInfo),
      (l.map (fun p =>
        (p.1, { p.2 with browserHash :=
          match old.lookup p.1 with
          | some i => i.browserHash
          | none =>
            match discovered.lookup p.1 with
            | some i => i.browserHash
            | none => none }))).lookup k
      = (l.lookup k).map (fun b => { b with browserHash :=
          (match old.lookup k with
          | some i => i.browserHash
          | none =>
            match discovered.lookup k with
            | some i => i.browserHash
            | none => none) }) := by
  intro l
  induction l with
  | nil => rfl
  | cons p t ih =>
    by_cases h : k = p.1
    · subst h
      simp [List.lookup]
    · have hb : (k == p.1) = false := by simp [h]
      simp only [List.map_cons, List.lookup, hb, ih]

theorem lookup_eq_of_mem_nodup :
    ∀ (l : List (String × OptimizedDepInfo)), (l.map Prod.fst).Nodup →
      ∀ p ∈ l, l.lookup p.1 = some p.2 := by
  intro l
  induction l with
  | nil => intro _ p hp; cases hp
  | cons q t ih =>
    intro hnd p hp
    rw [List.map_cons, List.nodup_cons] at hnd
    rw [List.mem_cons] at hp
    rcases hp with hp | hp
    · subst hp
      simp [List.lookup]
    · have hne : p.1 ≠ q.1 := by
        intro hq
        exact hnd.1 (hq ▸ List.mem_map_of_mem Prod.fst hp)
      have hb : (p.1 == q.1) = false := by simp [hne]
      simp only [List.lookup, hb]
      exact ih hnd.2 p hp

def lodashInfoExample : OptimizedDepInfo :=
  { id := "lodash", file := "l.js", fileHash := some "FH", browserHash := some "BH" }

def reactInfoExample : OptimizedDepInfo :=
  { id := "react", file := "r.js", browserHash := some "RBH",
    needsInterop := some false, processing := some 0 }

def metadataExample : DepOptimizationMetadata :=
  { hash := "H", browserHash := "BH"
    optimized := [("lodash", lodashInfoExample)]
    discovered := [("react", reactInfoExample)] }

def rebundledReactExample : OptimizedDepInfo :=
  { id := "react", file := "r.js", browserHash := some "RBH",
    needsInterop := some true, processing := none }

/-- A bundler result with the same `hash`, the same `fileHash` for `lodash`,
but a `needsInterop` answer for `react` that contradicts its declared one. -/
def mismatchNewDataExample : DepOptimizationMetadata :=
  { hash := "H", browserHash := "BH2"
    optimized := [("lodash", { lodashInfoExample with browserHash := some "NEWBH" }),
                  ("react", rebundledReactExample)] }

def mismatchStateExample : OptimizerState :=
  (runOptimizerPrepare { metadata := metadataExample }).1

/-- C5 counterexample: the claim's two hypotheses can hold (new bundler hash
equals the stored hash, and the previously optimized dep `lodash` keeps its
`fileHash`) while a `needsInterop` mismatch on the discovered dep `react`
still forces `needsReload`; the committed metadata then carries the bundler's
fresh `browserHash` for `lodash` instead of the old one, so the conclusion
fails. -/
theorem C5_counterexample :
    metadataExample.hash = mismatchNewDataExample.hash ∧
    (mismatchNewDataExample.optimized.lookup "lodash").map (fun i => i.fileHash)
      = some (metadataExample.optimized.getD 0 default).2.fileHash ∧
    ((runOptimizerFinish mismatchStateExample (.ok mismatchNewDataExample)).metadata.optimized.lookup
        "lodash").map (fun i => i.browserHash) = some (some "NEWBH") ∧
    (metadataExample.optimized.getD 0 default).2.browserHash = some "BH" := by
  refine ⟨rfl, rfl, ?_, rfl⟩
  rfl

/-- C5 amended: if additionally no discovered dep has a `needsInterop`
mismatch with the bundler's result, then the commit carries the previous
`browserHash` onto every previously optimized dep, keeping existing `?v=`
urls valid. -/
theorem C5_theorem (st : OptimizerState) (newData : DepOptimizationMetadata)
    (hnd : (st.metadata.optimized.map Prod.fst).Nodup)
    (hhash : st.metadata.hash = newData.hash)
    (hfile : ∀ p ∈ st.metadata.optimized,
      ∃ j, newData.optimized.lookup p.1 = some j ∧ j.fileHash = p.2.fileHash)
    (hmismatch : needsInteropMismatch st.metadata.discovered newData.optimized = []) :
    ∀ p ∈ st.metadata.optimized, ∃ i,
      (runOptimizerFinish st (.ok newData)).metadata.optimized.lookup p.1 = some i ∧
      i.browserHash = p.2.browserHash := by
  have hnr : needsReload st.metadata newData = false := by
    unfold needsReload
    rw [hmismatch, hhash]
    simp only [List.isEmpty_nil, Bool.not_true, bne_self_eq_false, Bool.false_or]
    rw [List.any_eq_false]
    intro p hp
    obtain ⟨j, hj, hjf⟩ := hfile p hp
    rw [hj]
    simp [hjf]
  intro p hp
  obtain ⟨j, hj, hjf⟩ := hfile p hp
  have hlk := lookup_eq_of_mem_nodup st.metadata.optimized hnd p hp
  have hfin : (runOptimizerFinish st (.ok newData)).metadata
      = commitProcessing st.metadata newData false := by
    simp only [runOptimizerFinish]
    rw [hnr]
    simp [resolveEnqueuedProcessingPromises]
  rw [hfin]
  unfold commitProcessing
  simp only [Bool.not_false, if_true]
  rw [lookup_map_carry, hj]
  refine ⟨_, rfl, ?_⟩
  simp [hlk]

/-- A bundler result that is reload-safe for `metadataExample`: same `hash`,
same `fileHash` for `lodash`, and a `needsInterop` answer for `react` that
matches its declared one. -/
def safeNewDataExample : DepOptimizationMetadata :=
  { hash := "H", browserHash := "BH2",
    optimized := [("lodash", { lodashInfoExample with browserHash := some "BH2" }),
                  ("react", { id := "react", file := "r.js", fileHash := some "RFH",
                              browserHash := some "BH2", needsInterop := some false })] }

/-- C5 witness: the amended statement at a concrete reload-safe re-bundle. -/
theorem C5_witness :
    ∃ i, (runOptimizerFinish mismatchStateExample (.ok safeNewDataExample)).metadata.optimized.lookup
        "lodash" = some i ∧ i.browserHash = some "BH" := by
  have h := C5_theorem mismatchStateExample safeNewDataExample (by decide) (by decide)
    (by
      intro p hp
      rw [show mismatchStateExample.metadata.optimized = [("lodash", lodashInfoExample)] from rfl,
        List.mem_singleton] at hp
      subst hp
      exact ⟨_, rfl, rfl⟩)
    (by decide)
  exact h ("lodash", lodashInfoExample) (by decide)

/-! ### Claim C9: template strings with interpolations in `accept(...)` -/

def templateAcceptExample : String := "hot.accept(`./foo${bar}`)"

/-- C9 counterexample: lexing `hot.accept(` + a template literal containing
an interpolation does not return normally as "self-accepting"; the lexer
raises a lex error at the position of the `$`. -/
theorem C9_counterexample :
    lexAcceptedHmrDeps templateAcceptExample 11 = .error 17 := by
  rfl

/-- The template-string state turns `${` into a lex error. -/
theorem lexLoop_template_interpolation (rest : List Char) (prev : LexerState) :
    ∀ (inner : List Char) (j : Nat) (dep : String) (urls : List UrlRecord),
      (∀ c ∈ inner, c ≠ backtickChar ∧ c ≠ '$') →
      lexLoop (inner ++ '$' :: openBraceChar :: rest) j .inTemplateString prev dep urls
        = .error (j + inner.length) := by
  intro inner
  induction inner with
  | nil =>
    intro j dep urls _
    have h1 : ¬ ('$' : Char) = backtickChar := by decide
    simp [lexLoop, h1]
  | cons c tl ih =>
    intro j dep urls h
    have hc := h c (List.mem_cons_self c tl)
    have h2 : ¬ (c = '$' ∧ ((tl ++ '$' :: openBraceChar :: rest).head? = some openBraceChar)) :=
      fun hx => hc.2 hx.1
    rw [List.cons_append, lexLoop]
    simp only [hc.1, if_false, reduceIte]
    rw [if_neg h2, ih (j + 1) (dep.push c) urls (fun d hd => h d (List.mem_cons_of_mem c hd))]
    congr 1
    simp [List.length_cons]
    omega

/-- C9 amended: a template-string first argument containing an interpolation
opener makes `lexAcceptedHmrDeps` raise a lex error (positioned at the `$`),
rather than returning normally as self-accepting. -/
theorem C9_theorem (inner rest : List Char)
    (h : ∀ c ∈ inner, c ≠ backtickChar ∧ c ≠ '$') :
    lexAcceptedHmrDeps (String.mk (backtickChar :: inner ++ '$' :: openBraceChar :: rest)) 0
      = .error (1 + inner.length) := by
  unfold lexAcceptedHmrDeps
  have htl : (String.mk (backtickChar :: inner ++ '$' :: openBraceChar :: rest)).toList
      = backtickChar :: inner ++ '$' :: openBraceChar :: rest := rfl
  rw [htl, List.drop_zero, List.cons_append, lexLoop]
  have hq1 : ¬ backtickChar = '\'' := by decide
  have hq2 : ¬ backtickChar = '"' := by decide
  simp only [if_neg hq1, if_neg hq2, if_pos rfl]
  rw [lexLoop_template_interpolation rest .inCall inner 1 "" [] h, Nat.add_comm]
  simp

/-- C9 witness: the amended statement at a concrete template argument. -/
theorem C9_witness :
    lexAcceptedHmrDeps (String.mk (backtickChar :: ['.', '/', 'f'] ++ '$' :: openBraceChar :: ['x'])) 0
      = .error 4 :=
  C9_theorem ['.', '/', 'f'] ['x'] (by decide)

/-! ### Claim C3: a null resolver and `ensureEntryFromUrl` -/

def nullResolver : String → Option PartialResolvedId := fun _ => none

def emptyClientGraph : EnvironmentModuleGraph := { environment := "client" }

/-- C3 counterexample: with a resolver that returns null and a fresh graph,
`ensureEntryFromUrl` does not fail with a resolve error — `_resolveUrl` falls
back to the raw url as the resolved id, and a module node for the url is
created and indexed. -/
theorem C3_counterexample :
    (EnvironmentModuleGraph.ensureEntryFromUrl nullResolver emptyClientGraph "/app/main.js").2 = 0 ∧
    (EnvironmentModuleGraph.ensureEntryFromUrl nullResolver emptyClientGraph "/app/main.js").1.nodes.length = 1 ∧
    ((EnvironmentModuleGraph.ensureEntryFromUrl nullResolver emptyClientGraph "/app/main.js").1.nodeAt 0).id
      = some "/app/main.js" ∧
    (EnvironmentModuleGraph.ensureEntryFromUrl nullResolver emptyClientGraph "/app/main.js").1.idToModuleMap.lookup
      "/app/main.js" = some 0 :=
  ⟨rfl, rfl, rfl, rfl⟩

theorem resolveUrl0_none (resolveId : String → Option PartialResolvedId) (url : String)
    (h : resolveId url = none) :
    EnvironmentModuleGraph.resolveUrl0 resolveId url none = (url, url, none) := by
  unfold EnvironmentModuleGraph.resolveUrl0
  rw [show (none : Option PartialResolvedId).orElse (fun _ => resolveId url) = resolveId url
    from rfl, h]
  simp

/-- C3 amended: when the injected resolver returns null, `ensureEntryFromUrl`
does not fail: the raw url (queries stripped) is used as the resolved id, and
— when neither the url cache nor the id index knows it — a fresh module node
is created with that id and registered in `idToModuleMap`.  No `ResolveError`
is raised by the module graph; resolve errors surface in `transformRequest`,
outside the graph. -/
theorem C3_theorem (resolveId : String → Option PartialResolvedId)
    (g : EnvironmentModuleGraph) (rawUrl : String)
    (hres : resolveId (removeImportQuery (removeTimestampQuery rawUrl)) = none)
    (hcache : g.unresolvedUrlToModuleMap.lookup
      (removeImportQuery (removeTimestampQuery rawUrl)) = none)
    (hid : g.idToModuleMap.lookup (removeImportQuery (removeTimestampQuery rawUrl)) = none) :
    (EnvironmentModuleGraph.ensureEntryFromUrl resolveId g rawUrl).2 = g.nodes.length ∧
    (EnvironmentModuleGraph.ensureEntryFromUrl resolveId g rawUrl).1.nodes.length = g.nodes.length + 1 ∧
    ((EnvironmentModuleGraph.ensureEntryFromUrl resolveId g rawUrl).1.nodeAt g.nodes.length).id
      = some (removeImportQuery (removeTimestampQuery rawUrl)) ∧
    (EnvironmentModuleGraph.ensureEntryFromUrl resolveId g rawUrl).1.idToModuleMap.lookup
      (removeImportQuery (removeTimestampQuery rawUrl)) = some g.nodes.length := by
  simp only [EnvironmentModuleGraph.ensureEntryFromUrl, hcache,
    resolveUrl0_none resolveId _ hres, hid]
  refine ⟨?_, ?_, ?_, ?_⟩ <;>
    simp [EnvironmentModuleGraph.fileMapAdd, EnvironmentModuleGraph.nodeAt, List.getD,
      List.getElem?_concat_length, mapSet, List.lookup]

/-! ### Facts about the propagation traversal -/

theorem contains_iff_mem (l : List Nat) (a : Nat) : l.contains a = true ↔ a ∈ l := by
  simp

theorem mem_addToSet {l : List Nat} {x y : Nat} : x ∈ addToSet l y ↔ x ∈ l ∨ x = y := by
  unfold addToSet
  split
  · rename_i hy
    constructor
    · exact Or.inl
    · rintro (h | rfl)
      · exact h
      · exact hy
  · simp [List.mem_append]

theorem subset_addToSet (l : List Nat) (y : Nat) : l ⊆ addToSet l y :=
  fun _ hx => mem_addToSet.mpr (Or.inl hx)

theorem mem_addToSet_self (l : List Nat) (y : Nat) : y ∈ addToSet l y :=
  mem_addToSet.mpr (Or.inr rfl)

/-! One-time unfolding equations for the propagation functions (their
well-founded mutual recursion makes on-the-fly unfolding expensive). -/

set_option maxHeartbeats 1600000 in
theorem propagateUpdate_zero (g : EnvironmentModuleGraph) (n : Nat) (tr : List Nat)
    (bds : List PropagationBoundary) (ch : List Nat) :
    propagateUpdate g 0 n tr bds ch = none := by
  rw [propagateUpdate]

set_option maxHeartbeats 1600000 in
theorem propagateUpdate_succ (g : EnvironmentModuleGraph) (fuel n : Nat) (tr : List Nat)
    (bds : List PropagationBoundary) (ch : List Nat) :
    propagateUpdate g (fuel + 1) n tr bds ch =
      if tr.contains n then some (false, tr, bds)
      else
        if idTruthy (g.nodeAt n) ∧ (g.nodeAt n).isSelfAccepting = none then
          some (false, addToSet tr n, bds)
        else if (g.nodeAt n).isSelfAccepting = some true then
          match propagateCssImporters g fuel (g.nodeAt n).importers (addToSet tr n)
            (bds ++ [⟨n, n, isNodeWithinCircularImportsB g n ch⟩]) ch with
          | none => none
          | some (tr2, bs2) => some (false, tr2, bs2)
        else if (g.nodeAt n).acceptedHmrExports.isSome then
          propagateImporters g fuel (g.nodeAt n).importers n (addToSet tr n)
            (bds ++ [⟨n, n, isNodeWithinCircularImportsB g n ch⟩]) ch
        else if (g.nodeAt n).importers.isEmpty then
          some (true, addToSet tr n, bds)
        else if ¬ isCSSRequest (g.nodeAt n).url ∧
            (g.nodeAt n).importers.all (fun i => isCSSRequest (g.nodeAt i).url) then
          some (true, addToSet tr n, bds)
        else
          propagateImporters g fuel (g.nodeAt n).importers n (addToSet tr n) bds ch := by
  rw [propagateUpdate]

set_option maxHeartbeats 1600000 in
theorem propagateCssImporters_nil (g : EnvironmentModuleGraph) (fuel : Nat)
    (tr : List Nat) (bds : List PropagationBoundary) (ch : List Nat) :
    propagateCssImporters g fuel [] tr bds ch = some (tr, bds) := by
  rw [propagateCssImporters]

set_option maxHeartbeats 1600000 in
theorem propagateCssImporters_cons (g : EnvironmentModuleGraph) (fuel imp : Nat)
    (rest : List Nat) (tr : List Nat) (bds : List PropagationBoundary) (ch : List Nat) :
    propagateCssImporters g fuel (imp :: rest) tr bds ch =
      if isCSSRequest (g.nodeAt imp).url ∧ ¬ ch.contains imp then
        match propagateUpdate g fuel imp tr bds (ch ++ [imp]) with
        | none => none
        | some (_, tr2, bs2) => propagateCssImporters g fuel rest tr2 bs2 ch
      else propagateCssImporters g fuel rest tr bds ch := by
  rw [propagateCssImporters]

set_option maxHeartbeats 1600000 in
theorem propagateImporters_nil (g : EnvironmentModuleGraph) (fuel nd : Nat)
    (tr : List Nat) (bds : List PropagationBoundary) (ch : List Nat) :
    propagateImporters g fuel [] nd tr bds ch = some (false, tr, bds) := by
  rw [propagateImporters]

set_option maxHeartbeats 1600000 in
theorem propagateImporters_cons (g : EnvironmentModuleGraph) (fuel imp nd : Nat)
    (rest : List Nat) (tr : List Nat) (bds : List PropagationBoundary) (ch : List Nat) :
    propagateImporters g fuel (imp :: rest) nd tr bds ch =
      if (g.nodeAt imp).acceptedHmrDeps.contains nd then
        propagateImporters g fuel rest nd tr
          (bds ++ [⟨imp, nd, isNodeWithinCircularImportsB g imp (ch ++ [imp])⟩]) ch
      else if importerBindingsSkipped g nd imp then
        propagateImporters g fuel rest nd tr bds ch
      else if ch.contains imp then
        propagateImporters g fuel rest nd tr bds ch
      else
        match propagateUpdate g fuel imp tr bds (ch ++ [imp]) with
        | none => none
        | some (true, tr2, bs2) => some (true, tr2, bs2)
        | some (false, tr2, bs2) => propagateImporters g fuel rest nd tr2 bs2 ch := by
  rw [propagateImporters]

set_option maxHeartbeats 1600000 in
theorem isNodeWithinCircularImports_zero (g : EnvironmentModuleGraph) (node : Nat)
    (nc cc tr : List Nat) :
    isNodeWithinCircularImports g 0 node nc cc tr = none := by
  rw [isNodeWithinCircularImports]

set_option maxHeartbeats 1600000 in
theorem isNodeWithinCircularImports_succ (g : EnvironmentModuleGraph) (fuel node : Nat)
    (nc cc tr : List Nat) :
    isNodeWithinCircularImports g (fuel + 1) node nc cc tr =
      if tr.contains node then some (false, tr)
      else circularImporterLoop g fuel (g.nodeAt node).importers node nc cc
        (addToSet tr node) := by
  rw [isNodeWithinCircularImports]

set_option maxHeartbeats 1600000 in
theorem circularImporterLoop_nil (g : EnvironmentModuleGraph) (fuel node : Nat)
    (nc cc tr : List Nat) :
    circularImporterLoop g fuel [] node nc cc tr = some (false, tr) := by
  rw [circularImporterLoop]

set_option maxHeartbeats 1600000 in
theorem circularImporterLoop_cons (g : EnvironmentModuleGraph) (fuel imp node : Nat)
    (rest : List Nat) (nc cc tr : List Nat) :
    circularImporterLoop g fuel (imp :: rest) node nc cc tr =
      if imp = node then circularImporterLoop g fuel rest node nc cc tr
      else if isCSSRequest (g.nodeAt imp).url then
        circularImporterLoop g fuel rest node nc cc tr
      else if nc.contains imp then some (true, tr)
      else if cc.contains imp then circularImporterLoop g fuel rest node nc cc tr
      else
        match isNodeWithinCircularImports g fuel imp nc (cc ++ [imp]) tr with
        | none => none
        | some (true, tr2) => some (true, tr2)
        | some (false, tr2) => circularImporterLoop g fuel rest node nc cc tr2 := by
  rw [circularImporterLoop]

/-- The traversed set only ever grows during propagation. -/
theorem propagate_traversed_mono :
    ∀ fuel : Nat,
      (∀ g n tr bds ch r, propagateUpdate g fuel n tr bds ch = some r → tr ⊆ r.2.1) ∧
      (∀ g imps tr bds ch r, propagateCssImporters g fuel imps tr bds ch = some r → tr ⊆ r.1) ∧
      (∀ g imps nd tr bds ch r, propagateImporters g fuel imps nd tr bds ch = some r → tr ⊆ r.2.1) := by
  intro fuel
  induction fuel with
  | zero =>
    refine ⟨?_, ?_, ?_⟩
    · intro g n tr bds ch r hr
      rw [propagateUpdate_zero] at hr
      cases hr
    · intro g imps
      induction imps with
      | nil =>
        intro tr bds ch r hr
        rw [propagateCssImporters_nil] at hr
        obtain rfl : (tr, bds) = r := by injection hr
        exact fun _ h => h
      | cons imp rest ih =>
        intro tr bds ch r hr
        rw [propagateCssImporters_cons] at hr
        split at hr
        · rw [propagateUpdate_zero] at hr
          cases hr
        · exact ih _ _ _ _ hr
    · intro g imps nd
      induction imps with
      | nil =>
        intro tr bds ch r hr
        rw [propagateImporters_nil] at hr
        obtain rfl : ((false, tr, bds) : Bool × List Nat × List PropagationBoundary) = r := by
          injection hr
        exact fun _ h => h
      | cons imp rest ih =>
        intro tr bds ch r hr
        rw [propagateImporters_cons] at hr
        split at hr
        · exact ih _ _ _ _ hr
        · split at hr
          · exact ih _ _ _ _ hr
          · split at hr
            · exact ih _ _ _ _ hr
            · rw [propagateUpdate_zero] at hr
              cases hr
  | succ n ihn =>
    have hmain : ∀ g nd0 tr bds ch r,
        propagateUpdate g (n + 1) nd0 tr bds ch = some r → tr ⊆ r.2.1 := by
      intro g nd0 tr bds ch r hr
      rw [propagateUpdate_succ] at hr
      split at hr
      · obtain rfl : (false, tr, bds) = r := by injection hr
        exact fun _ h => h
      · split at hr
        · obtain rfl : (false, addToSet tr nd0, bds) = r := by injection hr
          exact subset_addToSet tr nd0
        · split at hr
          · split at hr
            · cases hr
            · rename_i tr2 bs2 heq
              obtain rfl : (false, tr2, bs2) = r := by injection hr
              exact (subset_addToSet tr nd0).trans (ihn.2.1 _ _ _ _ _ _ heq)
          · split at hr
            · exact (subset_addToSet tr nd0).trans (ihn.2.2 _ _ _ _ _ _ _ hr)
            · split at hr
              · obtain rfl : (true, addToSet tr nd0, bds) = r := by injection hr
                exact subset_addToSet tr nd0
              · split at hr
                · obtain rfl : (true, addToSet tr nd0, bds) = r := by injection hr
                  exact subset_addToSet tr nd0
                · exact (subset_addToSet tr nd0).trans (ihn.2.2 _ _ _ _ _ _ _ hr)
    refine ⟨hmain, ?_, ?_⟩
    · intro g imps
      induction imps with
      | nil =>
        intro tr bds ch r hr
        rw [propagateCssImporters_nil] at hr
        obtain rfl : (tr, bds) = r := by injection hr
        exact fun _ h => h
      | cons imp rest ih =>
        intro tr bds ch r hr
        rw [propagateCssImporters_cons] at hr
        split at hr
        · split at hr
          · cases hr
          · rename_i b tr2 bs2 heq
            exact (hmain _ _ _ _ _ _ heq).trans (ih _ _ _ _ hr)
        · exact ih _ _ _ _ hr
    · intro g imps nd
      induction imps with
      | nil =>
        intro tr bds ch r hr
        rw [propagateImporters_nil] at hr
        obtain rfl : ((false, tr, bds) : Bool × List Nat × List PropagationBoundary) = r := by
          injection hr
        exact fun _ h => h
      | cons imp rest ih =>
        intro tr bds ch r hr
        rw [propagateImporters_cons] at hr
        split at hr
        · exact ih _ _ _ _ hr
        · split at hr
          · exact ih _ _ _ _ hr
          · split at hr
            · exact ih _ _ _ _ hr
            · split at hr
              · cases hr
              · rename_i tr2 bs2 heq
                obtain rfl : (true, tr2, bs2) = r := by injection hr
                exact hmain _ _ _ _ _ _ heq
              · rename_i tr2 bs2 heq
                exact (hmain _ _ _ _ _ _ heq).trans (ih _ _ _ _ hr)

/-- Propagation always records the visited node in the traversed set. -/
theorem propagateUpdate_mem_traversed (g : EnvironmentModuleGraph) (fuel n : Nat)
    (tr : List Nat) (bds : List PropagationBoundary) (ch : List Nat)
    (r : Bool × List Nat × List PropagationBoundary)
    (hr : propagateUpdate g fuel n tr bds ch = some r) : n ∈ r.2.1 := by
  cases fuel with
  | zero =>
    rw [propagateUpdate_zero] at hr
    cases hr
  | succ m =>
    rw [propagateUpdate_succ] at hr
    have hself : n ∈ addToSet tr n := mem_addToSet_self tr n
    split at hr
    · rename_i hc
      obtain rfl : (false, tr, bds) = r := by injection hr
      exact (contains_iff_mem tr n).mp hc
    · split at hr
      · obtain rfl : (false, addToSet tr n, bds) = r := by injection hr
        exact hself
      · split at hr
        · split at hr
          · cases hr
          · rename_i tr2 bs2 heq
            obtain rfl : (false, tr2, bs2) = r := by injection hr
            exact (propagate_traversed_mono m).2.1 _ _ _ _ _ _ heq hself
        · split at hr
          · exact (propagate_traversed_mono m).2.2 _ _ _ _ _ _ _ hr hself
          · split at hr
            · obtain rfl : (true, addToSet tr n, bds) = r := by injection hr
              exact hself
            · split at hr
              · obtain rfl : (true, addToSet tr n, bds) = r := by injection hr
                exact hself
              · exact (propagate_traversed_mono m).2.2 _ _ _ _ _ _ _ hr hself

/-- The nodes of the graph not yet traversed. -/
def remainingCount (g : EnvironmentModuleGraph) (tr : List Nat) : Nat :=
  ((List.range g.nodes.length).filter (fun i => !(tr.contains i))).length

theorem remainingCount_le (g : EnvironmentModuleGraph) (tr : List Nat) :
    remainingCount g tr ≤ g.nodes.length := by
  unfold remainingCount
  calc ((List.range g.nodes.length).filter (fun i => !(tr.contains i))).length
      ≤ (List.range g.nodes.length).length := (List.filter_sublist _).length_le
    _ = g.nodes.length := List.length_range _

theorem remainingCount_mono (g : EnvironmentModuleGraph) {tr tr' : List Nat}
    (h : tr ⊆ tr') : remainingCount g tr' ≤ remainingCount g tr := by
  unfold remainingCount
  apply List.Sublist.length_le
  apply List.monotone_filter_right
  intro a ha
  have hnot : a ∉ tr' := by simpa using ha
  simpa using fun hmem => hnot (h hmem)

theorem remainingCount_lt (g : EnvironmentModuleGraph) {tr : List Nat} {n : Nat}
    (hn : n < g.nodes.length) (hmem : n ∉ tr) :
    remainingCount g (addToSet tr n) < remainingCount g tr := by
  unfold remainingCount
  have hpt : (fun i => !((addToSet tr n).contains i))
      = (fun i => (!(i == n)) && !(tr.contains i)) := by
    funext i
    by_cases hin : i ∈ tr
    · simp [mem_addToSet, hin]
    · by_cases hieq : i = n
      · subst hieq
        simp [mem_addToSet]
      · simp [mem_addToSet, hin, hieq]
  rw [hpt, ← List.filter_filter]
  rw [List.length_filter_lt_length_iff_exists]
  refine ⟨n, ?_, by simp⟩
  rw [List.mem_filter]
  refine ⟨List.mem_range.mpr hn, by simpa using hmem⟩

/-- With `edgesValid`, the importers of a valid node are valid. -/
theorem importers_valid (g : EnvironmentModuleGraph) (hv : edgesValid g = true)
    (n : Nat) (hn : n < g.nodes.length) :
    ∀ i ∈ (g.nodeAt n).importers, i < g.nodes.length := by
  rw [edgesValid, List.all_eq_true] at hv
  intro i hi
  have hmemn : g.nodeAt n ∈ g.nodes := by
    rw [EnvironmentModuleGraph.nodeAt, List.getD_eq_getElem g.nodes default hn]
    exact List.getElem_mem hn
  have := hv (g.nodeAt n) hmemn
  rw [List.all_eq_true] at this
  have := this i (List.mem_append_left _ hi)
  simpa using this

/-- Fuel exceeding the number of untraversed nodes (hence `|V| + 1`) is
enough: on edge-valid graphs the propagation never runs out. -/
theorem propagate_isSome :
    ∀ fuel : Nat, ∀ g : EnvironmentModuleGraph, edgesValid g = true →
      (∀ n tr bds ch, n < g.nodes.length → remainingCount g tr < fuel →
        (propagateUpdate g fuel n tr bds ch).isSome = true) ∧
      (∀ imps tr bds ch, (∀ i ∈ imps, i < g.nodes.length) → remainingCount g tr < fuel →
        (propagateCssImporters g fuel imps tr bds ch).isSome = true) ∧
      (∀ imps nd tr bds ch, (∀ i ∈ imps, i < g.nodes.length) → remainingCount g tr < fuel →
        (propagateImporters g fuel imps nd tr bds ch).isSome = true) := by
  intro fuel
  induction fuel with
  | zero =>
    intro g _
    refine ⟨?_, ?_, ?_⟩ <;> intro _ _ _ _ _ h <;> omega
  | succ m ihm =>
    intro g hv
    obtain ⟨ihP, ihC, ihI⟩ := ihm g hv
    have hmain : ∀ n tr bds ch, n < g.nodes.length → remainingCount g tr < m + 1 →
        (propagateUpdate g (m + 1) n tr bds ch).isSome = true := by
      intro n tr bds ch hn hf
      rw [propagateUpdate_succ]
      by_cases hc : tr.contains n = true
      · rw [if_pos hc]
        rfl
      · rw [if_neg hc]
        have hnot : n ∉ tr := fun hm => hc ((contains_iff_mem _ _).mpr hm)
        have hlt : remainingCount g (addToSet tr n) < m := by
          have h1 := remainingCount_lt g hn hnot
          omega
        have hvimps := importers_valid g hv n hn
        split
        · rfl
        · split
          · obtain ⟨p, hp⟩ := Option.isSome_iff_exists.mp (ihC _ _ _ _ hvimps hlt)
            rw [hp]
            obtain ⟨tr2, bs2⟩ := p
            rfl
          · split
            · exact ihI _ _ _ _ _ hvimps hlt
            · split
              · rfl
              · split
                · rfl
                · exact ihI _ _ _ _ _ hvimps hlt
    refine ⟨hmain, ?_, ?_⟩
    · intro imps
      induction imps with
      | nil =>
        intro tr bds ch _ _
        rw [propagateCssImporters_nil]
        rfl
      | cons imp rest ih =>
        intro tr bds ch hvi hf
        rw [propagateCssImporters_cons]
        split
        · obtain ⟨p, hp⟩ := Option.isSome_iff_exists.mp
            (hmain imp tr bds (ch ++ [imp]) (hvi imp (List.mem_cons_self _ _)) hf)
          rw [hp]
          obtain ⟨b, tr2, bs2⟩ := p
          have hsub := (propagate_traversed_mono (m + 1)).1 _ _ _ _ _ _ hp
          exact ih _ _ _ (fun i hi => hvi i (List.mem_cons_of_mem _ hi))
            (lt_of_le_of_lt (remainingCount_mono g hsub) hf)
        · exact ih _ _ _ (fun i hi => hvi i (List.mem_cons_of_mem _ hi)) hf
    · intro imps nd
      induction imps with
      | nil =>
        intro tr bds ch _ _
        rw [propagateImporters_nil]
        rfl
      | cons imp rest ih =>
        intro tr bds ch hvi hf
        rw [propagateImporters_cons]
        have htail := fun (i : Nat) (hi : i ∈ rest) => hvi i (List.mem_cons_of_mem _ hi)
        split
        · exact ih _ _ _ htail hf
        · split
          · exact ih _ _ _ htail hf
          · split
            · exact ih _ _ _ htail hf
            · obtain ⟨p, hp⟩ := Option.isSome_iff_exists.mp
                (hmain imp tr bds (ch ++ [imp]) (hvi imp (List.mem_cons_self _ _)) hf)
              rw [hp]
              obtain ⟨b, tr2, bs2⟩ := p
              have hsub := (propagate_traversed_mono (m + 1)).1 _ _ _ _ _ _ hp
              cases b
              · exact ih _ _ _ htail (lt_of_le_of_lt (remainingCount_mono g hsub) hf)
              · rfl

/-- Once propagation succeeds with some fuel, more fuel computes the very same
result: the fuel is a proof device, not part of the semantics. -/
theorem propagate_fuel_mono :
    ∀ fuel : Nat,
      (∀ g n tr bds ch r, propagateUpdate g fuel n tr bds ch = some r →
        propagateUpdate g (fuel + 1) n tr bds ch = some r) ∧
      (∀ g imps tr bds ch r, propagateCssImporters g fuel imps tr bds ch = some r →
        propagateCssImporters g (fuel + 1) imps tr bds ch = some r) ∧
      (∀ g imps nd tr bds ch r, propagateImporters g fuel imps nd tr bds ch = some r →
        propagateImporters g (fuel + 1) imps nd tr bds ch = some r) := by
  intro fuel
  induction fuel with
  | zero =>
    refine ⟨?_, ?_, ?_⟩
    · intro g n tr bds ch r hr
      rw [propagateUpdate_zero] at hr
      cases hr
    · intro g imps
      induction imps with
      | nil =>
        intro tr bds ch r hr
        rw [propagateCssImporters_nil] at hr ⊢
        exact hr
      | cons imp rest ih =>
        intro tr bds ch r hr
        rw [propagateCssImporters_cons] at hr ⊢
        split at hr
        · rename_i hcond
          rw [propagateUpdate_zero] at hr
          cases hr
        · rename_i hcond
          rw [if_neg hcond]
          exact ih _ _ _ _ hr
    · intro g imps nd
      induction imps with
      | nil =>
        intro tr bds ch r hr
        rw [propagateImporters_nil] at hr ⊢
        exact hr
      | cons imp rest ih =>
        intro tr bds ch r hr
        rw [propagateImporters_cons] at hr ⊢
        split at hr
        · rename_i hcond
          rw [if_pos hcond]
          exact ih _ _ _ _ hr
        · rename_i hcond1
          rw [if_neg hcond1]
          split at hr
          · rename_i hcond2
            rw [if_pos hcond2]
            exact ih _ _ _ _ hr
          · rename_i hcond2
            rw [if_neg hcond2]
            split at hr
            · rename_i hcond3
              rw [if_pos hcond3]
              exact ih _ _ _ _ hr
            · rename_i hcond3
              rw [if_neg hcond3]
              rw [propagateUpdate_zero] at hr
              cases hr
  | succ m ihm =>
    have hmain : ∀ g n tr bds ch r, propagateUpdate g (m + 1) n tr bds ch = some r →
        propagateUpdate g (m + 2) n tr bds ch = some r := by
      intro g n tr bds ch r hr
      rw [propagateUpdate_succ] at hr
      rw [propagateUpdate_succ]
      split at hr
      · rename_i hcond
        rw [if_pos hcond]
        exact hr
      · rename_i hcond
        rw [if_neg hcond]
        split at hr
        · rename_i hcond1
          rw [if_pos hcond1]
          exact hr
        · rename_i hcond1
          rw [if_neg hcond1]
          split at hr
          · rename_i hcond2
            rw [if_pos hcond2]
            split at hr
            · cases hr
            · rename_i tr2 bs2 heq
              rw [ihm.2.1 _ _ _ _ _ _ heq]
              exact hr
          · rename_i hcond2
            rw [if_neg hcond2]
            split at hr
            · rename_i hcond3
              rw [if_pos hcond3]
              exact ihm.2.2 _ _ _ _ _ _ _ hr
            · rename_i hcond3
              rw [if_neg hcond3]
              split at hr
              · rename_i hcond4
                rw [if_pos hcond4]
                exact hr
              · rename_i hcond4
                rw [if_neg hcond4]
                split at hr
                · rename_i hcond5
                  rw [if_pos hcond5]
                  exact hr
                · rename_i hcond5
                  rw [if_neg hcond5]
                  exact ihm.2.2 _ _ _ _ _ _ _ hr
    refine ⟨hmain, ?_, ?_⟩
    · intro g imps
      induction imps with
      | nil =>
        intro tr bds ch r hr
        rw [propagateCssImporters_nil] at hr ⊢
        exact hr
      | cons imp rest ih =>
        intro tr bds ch r hr
        rw [propagateCssImporters_cons] at hr ⊢
        split at hr
        · rename_i hcond
          rw [if_pos hcond]
          split at hr
          · cases hr
          · rename_i b tr2 bs2 heq
            rw [hmain _ _ _ _ _ _ heq]
            exact ih _ _ _ _ hr
        · rename_i hcond
          rw [if_neg hcond]
          exact ih _ _ _ _ hr
    · intro g imps nd
      induction imps with
      | nil =>
        intro tr bds ch r hr
        rw [propagateImporters_nil] at hr ⊢
        exact hr
      | cons imp rest ih =>
        intro tr bds ch r hr
        rw [propagateImporters_cons] at hr ⊢
        split at hr
        · rename_i hcond
          rw [if_pos hcond]
          exact ih _ _ _ _ hr
        · rename_i hcond1
          rw [if_neg hcond1]
          split at hr
          · rename_i hcond2
            rw [if_pos hcond2]
            exact ih _ _ _ _ hr
          · rename_i hcond2
            rw [if_neg hcond2]
            split at hr
            · rename_i hcond3
              rw [if_pos hcond3]
              exact ih _ _ _ _ hr
            · rename_i hcond3
              rw [if_neg hcond3]
              split at hr
              · cases hr
              · rename_i tr2 bs2 heq
                rw [hmain _ _ _ _ _ _ heq]
                exact hr
              · rename_i tr2 bs2 heq
                rw [hmain _ _ _ _ _ _ heq]
                exact ih _ _ _ _ hr

/-- Fuel-independence beyond a sufficient amount, by iterating
`propagate_fuel_mono`. -/
theorem propagateUpdate_fuel_ge (g : EnvironmentModuleGraph) (fuel fuel' n : Nat)
    (tr : List Nat) (bds : List PropagationBoundary) (ch : List Nat)
    (r : Bool × List Nat × List PropagationBoundary)
    (hle : fuel ≤ fuel') (hr : propagateUpdate g fuel n tr bds ch = some r) :
    propagateUpdate g fuel' n tr bds ch = some r := by
  induction fuel' with
  | zero =>
    have : fuel = 0 := by omega
    subst this
    exact hr
  | succ k ih =>
    rcases Nat.lt_or_ge fuel (k + 1) with h | h
    · exact (propagate_fuel_mono k).1 _ _ _ _ _ _ (ih (by omega))
    · have : fuel = k + 1 := by omega
      subst this
      exact hr

/-- The traversed set only grows during the circular-import search. -/
theorem circ_traversed_mono :
    ∀ fuel : Nat,
      (∀ g node nc cc tr r, isNodeWithinCircularImports g fuel node nc cc tr = some r →
        tr ⊆ r.2) ∧
      (∀ g imps node nc cc tr r, circularImporterLoop g fuel imps node nc cc tr = some r →
        tr ⊆ r.2) := by
  intro fuel
  induction fuel with
  | zero =>
    refine ⟨?_, ?_⟩
    · intro g node nc cc tr r hr
      rw [isNodeWithinCircularImports_zero] at hr
      cases hr
    · intro g imps
      induction imps with
      | nil =>
        intro node nc cc tr r hr
        rw [circularImporterLoop_nil] at hr
        obtain rfl : ((false, tr) : Bool × List Nat) = r := by injection hr
        exact fun _ h => h
      | cons imp rest ih =>
        intro node nc cc tr r hr
        rw [circularImporterLoop_cons] at hr
        split at hr
        · exact ih _ _ _ _ _ hr
        · split at hr
          · exact ih _ _ _ _ _ hr
          · split at hr
            · obtain rfl : ((true, tr) : Bool × List Nat) = r := by injection hr
              exact fun _ h => h
            · split at hr
              · exact ih _ _ _ _ _ hr
              · rw [isNodeWithinCircularImports_zero] at hr
                cases hr
  | succ m ihm =>
    have hmain : ∀ g node nc cc tr r,
        isNodeWithinCircularImports g (m + 1) node nc cc tr = some r → tr ⊆ r.2 := by
      intro g node nc cc tr r hr
      rw [isNodeWithinCircularImports_succ] at hr
      split at hr
      · obtain rfl : ((false, tr) : Bool × List Nat) = r := by injection hr
        exact fun _ h => h
      · exact (subset_addToSet tr node).trans (ihm.2 _ _ _ _ _ _ _ hr)
    refine ⟨hmain, ?_⟩
    intro g imps
    induction imps with
    | nil =>
      intro node nc cc tr r hr
      rw [circularImporterLoop_nil] at hr
      obtain rfl : ((false, tr) : Bool × List Nat) = r := by injection hr
      exact fun _ h => h
    | cons imp rest ih =>
      intro node nc cc tr r hr
      rw [circularImporterLoop_cons] at hr
      split at hr
      · exact ih _ _ _ _ _ hr
      · split at hr
        · exact ih _ _ _ _ _ hr
        · split at hr
          · obtain rfl : ((true, tr) : Bool × List Nat) = r := by injection hr
            exact fun _ h => h
          · split at hr
            · exact ih _ _ _ _ _ hr
            · split at hr
              · cases hr
              · rename_i tr2 heq
                obtain rfl : ((true, tr2) : Bool × List Nat) = r := by injection hr
                exact hmain _ _ _ _ _ _ heq
              · rename_i tr2 heq
                exact (hmain _ _ _ _ _ _ heq).trans (ih _ _ _ _ _ hr)

/-- Fuel exceeding the untraversed-node count is enough for the
circular-import search. -/
theorem circ_isSome :
    ∀ fuel : Nat, ∀ g : EnvironmentModuleGraph, edgesValid g = true →
      (∀ node nc cc tr, node < g.nodes.length → remainingCount g tr < fuel →
        (isNodeWithinCircularImports g fuel node nc cc tr).isSome = true) ∧
      (∀ imps node nc cc tr, (∀ i ∈ imps, i < g.nodes.length) → remainingCount g tr < fuel →
        (circularImporterLoop g fuel imps node nc cc tr).isSome = true) := by
  intro fuel
  induction fuel with
  | zero =>
    intro g _
    refine ⟨?_, ?_⟩ <;> intro _ _ _ _ _ h <;> omega
  | succ m ihm =>
    intro g hv
    obtain ⟨ihM, ihL⟩ := ihm g hv
    have hmain : ∀ node nc cc tr, node < g.nodes.length → remainingCount g tr < m + 1 →
        (isNodeWithinCircularImports g (m + 1) node nc cc tr).isSome = true := by
      intro node nc cc tr hn hf
      rw [isNodeWithinCircularImports_succ]
      by_cases hc : tr.contains node = true
      · rw [if_pos hc]
        rfl
      · rw [if_neg hc]
        have hnot : node ∉ tr := fun hm => hc ((contains_iff_mem _ _).mpr hm)
        have hlt : remainingCount g (addToSet tr node) < m := by
          have h1 := remainingCount_lt g hn hnot
          omega
        exact ihL _ _ _ _ _ (importers_valid g hv node hn) hlt
    refine ⟨hmain, ?_⟩
    intro imps
    induction imps with
    | nil =>
      intro node nc cc tr _ _
      rw [circularImporterLoop_nil]
      rfl
    | cons imp rest ih =>
      intro node nc cc tr hvi hf
      rw [circularImporterLoop_cons]
      have htail := fun (i : Nat) (hi : i ∈ rest) => hvi i (List.mem_cons_of_mem _ hi)
      split
      · exact ih _ _ _ _ htail hf
      · split
        · exact ih _ _ _ _ htail hf
        · split
          · rfl
          · split
            · exact ih _ _ _ _ htail hf
            · obtain ⟨p, hp⟩ := Option.isSome_iff_exists.mp
                (hmain imp nc (cc ++ [imp]) tr (hvi imp (List.mem_cons_self _ _)) hf)
              rw [hp]
              obtain ⟨b, tr2⟩ := p
              have hsub := (circ_traversed_mono (m + 1)).1 _ _ _ _ _ _ hp
              cases b
              · exact ih _ _ _ _ htail (lt_of_le_of_lt (remainingCount_mono g hsub) hf)
              · rfl

/-- The fuel `|V| + 1` used by `isNodeWithinCircularImportsB` never runs out
on edge-valid graphs, so the wrapper's fallback is dead code and the model
matches the source exactly. -/
theorem circ_fuel_sufficient (g : EnvironmentModuleGraph) (hv : edgesValid g = true)
    (node : Nat) (hn : node < g.nodes.length) (nodeChain : List Nat) :
    (isNodeWithinCircularImports g (g.nodes.length + 1) node nodeChain [node] []).isSome
      = true :=
  (circ_isSome (g.nodes.length + 1) g hv).1 node nodeChain [node] [] hn
    (lt_of_le_of_lt (remainingCount_le g []) (Nat.lt_succ_self _))

/-! ### Claim C7: propagation terminates on every finite graph -/

/-- C7: `propagateUpdate` terminates on every finite module graph, import
cycles included: the traversed set bounds the recursion depth by the number of
nodes, so fuel `|V| + 1` always completes, and every larger fuel computes the
same result. -/
theorem C7_theorem (g : EnvironmentModuleGraph) (n : Nat) (tr : List Nat)
    (bds : List PropagationBoundary) (ch : List Nat)
    (hv : edgesValid g = true) (hn : n < g.nodes.length) :
    ∃ r, ∀ fuel, g.nodes.length + 1 ≤ fuel →
      propagateUpdate g fuel n tr bds ch = some r := by
  have hsome := (propagate_isSome (g.nodes.length + 1) g hv).1 n tr bds ch hn
    (lt_of_le_of_lt (remainingCount_le g tr) (Nat.lt_succ_self _))
  obtain ⟨r, hr⟩ := Option.isSome_iff_exists.mp hsome
  exact ⟨r, fun fuel hf => propagateUpdate_fuel_ge g _ fuel n tr bds ch r hf hr⟩

/-- A three-node import cycle: node 0 imports node 1, node 1 imports node 2,
node 2 imports node 0; node 0 is self-accepting. -/
def cycleGraphExample : EnvironmentModuleGraph :=
  { environment := "client"
    nodes :=
      [{ environment := "client", url := "/A.js", id := some "/A.js", type := .js,
         isSelfAccepting := some true, importedModules := [1], importers := [2] },
       { environment := "client", url := "/B.js", id := some "/B.js", type := .js,
         isSelfAccepting := some false, importedModules := [2], importers := [0] },
       { environment := "client", url := "/C.js", id := some "/C.js", type := .js,
         isSelfAccepting := some false, importedModules := [0], importers := [1] }] }

/-- C7 witness: termination on the concrete cyclic graph. -/
theorem C7_witness :
    ∃ r, ∀ fuel, cycleGraphExample.nodes.length + 1 ≤ fuel →
      propagateUpdate cycleGraphExample fuel 1 [] [] [1] = some r :=
  C7_theorem cycleGraphExample 1 [] [] [1] (by decide) (by decide)

/-! ### Claim C6: partially accepted exports and the importer walk -/

/-- C6: in the importer walk of `propagateUpdate`, when the node carries
partial-acceptance metadata and the importer's bindings for the node are all
accepted exports, the importer is skipped (no boundary, no recursion, the
traversed set and boundary list are untouched); when some consumed binding is
not accepted (and the importer neither explicitly accepts the node nor sits on
the current chain), propagation recurses into the importer, which ends up in
the traversed set. -/
theorem C6_theorem (g : EnvironmentModuleGraph) (fuel imp nd : Nat) (rest : List Nat)
    (tr : List Nat) (bds : List PropagationBoundary) (ch : List Nat)
    (nid : String) (acceptedExports : List String)
    (bindings : List (String × List String)) (importedBindingsFromNode : List String)
    (hdeps : (g.nodeAt imp).acceptedHmrDeps.contains nd = false)
    (hid : (g.nodeAt nd).id = some nid) (hnid : nid ≠ "")
    (hex : (g.nodeAt nd).acceptedHmrExports = some acceptedExports)
    (hbind : (g.nodeAt imp).importedBindings = some bindings)
    (hlook : bindings.lookup nid = some importedBindingsFromNode) :
    (areAllImportsAccepted importedBindingsFromNode acceptedExports = true →
      propagateImporters g fuel (imp :: rest) nd tr bds ch
        = propagateImporters g fuel rest nd tr bds ch) ∧
    (areAllImportsAccepted importedBindingsFromNode acceptedExports = false →
      ch.contains imp = false →
      propagateImporters g fuel (imp :: rest) nd tr bds ch
        = (match propagateUpdate g fuel imp tr bds (ch ++ [imp]) with
          | none => none
          | some (true, tr2, bs2) => some (true, tr2, bs2)
          | some (false, tr2, bs2) => propagateImporters g fuel rest nd tr2 bs2 ch) ∧
      (∀ r, propagateUpdate g fuel imp tr bds (ch ++ [imp]) = some r → imp ∈ r.2.1)) := by
  have h1 : ¬ ((g.nodeAt imp).acceptedHmrDeps.contains nd = true) := by
    rw [hdeps]
    simp
  constructor
  · intro hacc
    have hskip : importerBindingsSkipped g nd imp = true := by
      unfold importerBindingsSkipped
      simp only [hid, hex, hbind]
      rw [if_pos hnid]
      simp only [hlook]
      exact hacc
    rw [propagateImporters_cons, if_neg h1, if_pos hskip]
  · intro hacc hch
    refine ⟨?_, fun r hr => propagateUpdate_mem_traversed g fuel imp tr bds _ r hr⟩
    have hskip : ¬ (importerBindingsSkipped g nd imp = true) := by
      unfold importerBindingsSkipped
      simp only [hid, hex, hbind]
      rw [if_pos hnid]
      simp only [hlook]
      rw [hacc]
      simp
    have hchn : ¬ (ch.contains imp = true) := by
      rw [hch]
      simp
    rw [propagateImporters_cons, if_neg h1, if_neg hskip, if_neg hchn]

/-- The partial-acceptance graph of the spec's scenario 5: node 0 accepts the
export set `{x}`, node 1 imports node 0 consuming `{x}` only. -/
def partialAcceptGraphExample : EnvironmentModuleGraph :=
  { environment := "client"
    nodes :=
      [{ environment := "client", url := "/A.js", id := some "/A.js", type := .js,
         isSelfAccepting := some false, acceptedHmrExports := some ["x"],
         importers := [1] },
       { environment := "client", url := "/B.js", id := some "/B.js", type := .js,
         isSelfAccepting := some false, importedModules := [0],
         importedBindings := some [("/A.js", ["x"])] }] }

/-- C6 witness: the statement at the spec's scenario-5 graph. -/
theorem C6_witness :
    (areAllImportsAccepted ["x"] ["x"] = true →
      propagateImporters partialAcceptGraphExample 5 [1] 0 [0] [] [0]
        = propagateImporters partialAcceptGraphExample 5 [] 0 [0] [] [0]) ∧
    (areAllImportsAccepted ["x"] ["x"] = false →
      ([0] : List Nat).contains 1 = false →
      propagateImporters partialAcceptGraphExample 5 [1] 0 [0] [] [0]
        = (match propagateUpdate partialAcceptGraphExample 5 1 [0] [] ([0] ++ [1]) with
          | none => none
          | some (true, tr2, bs2) => some (true, tr2, bs2)
          | some (false, tr2, bs2) =>
            propagateImporters partialAcceptGraphExample 5 [] 0 tr2 bs2 [0]) ∧
      (∀ r, propagateUpdate partialAcceptGraphExample 5 1 [0] [] ([0] ++ [1]) = some r →
        1 ∈ r.2.1)) :=
  C6_theorem partialAcceptGraphExample 5 1 0 [] [0] [] [0] "/A.js" ["x"]
    [("/A.js", ["x"])] ["x"] (by decide) (by decide) (by decide) (by decide)
    (by decide) (by decide)

/-! ### Claim C1: edge symmetry — infrastructure -/

/-- Proposition form of `mapsValid`. -/
def MapsOk (g : EnvironmentModuleGraph) : Prop :=
  (∀ p ∈ g.idToModuleMap, p.2 < g.nodes.length) ∧
  (∀ p ∈ g.unresolvedUrlToModuleMap, p.2 < g.nodes.length) ∧
  (∀ p ∈ g.urlToModuleMap, p.2 < g.nodes.length) ∧
  (∀ p ∈ g.etagToModuleMap, p.2 < g.nodes.length) ∧
  (∀ p ∈ g.fileToModulesMap, ∀ j ∈ p.2, j < g.nodes.length)

/-- Proposition form of `edgesValid`. -/
def EdgesOk (g : EnvironmentModuleGraph) : Prop :=
  ∀ a, (∀ x ∈ (g.nodeAt a).importers, x < g.nodes.length) ∧
    (∀ x ∈ (g.nodeAt a).importedModules, x < g.nodes.length)

/-- Proposition form of `edgeSymmetric`. -/
def SymOk (g : EnvironmentModuleGraph) : Prop :=
  ∀ a b, b ∈ (g.nodeAt a).importedModules ↔ a ∈ (g.nodeAt b).importers

theorem lookup_mem {β : Type} : ∀ {l : List (String × β)} {k : String} {v : β},
    l.lookup k = some v → (k, v) ∈ l := by
  intro l
  induction l with
  | nil => intro k v h; cases h
  | cons p t ih =>
    intro k v h
    obtain ⟨a, b⟩ := p
    rw [List.lookup] at h
    split at h
    · rename_i hbeq
      obtain rfl : b = v := by injection h
      have hk : k = a := by simpa using hbeq
      subst hk
      exact List.mem_cons_self _ _
    · exact List.mem_cons_of_mem _ (ih h)

theorem mem_addToSet_lookup {m : List (String × List Nat)} {file : String}
    {i j L : Nat} (hm : ∀ p ∈ m, ∀ j ∈ p.2, j < L)
    (hj : j ∈ addToSet ((m.lookup file).getD []) i) : j < L ∨ j = i := by
  rcases mem_addToSet.mp hj with hj' | rfl
  · cases hlk : m.lookup file with
    | none => rw [hlk] at hj'; simp at hj'
    | some s =>
      rw [hlk] at hj'
      exact Or.inl (hm _ (lookup_mem hlk) _ hj')
  · exact Or.inr rfl

/-- What `ensureEntryFromUrl` does to the arena: at most one fresh node is
appended (with empty edge sets), existing nodes are untouched, the returned
index is valid, and the lookup tables stay valid. -/
theorem ensureEntryFromUrl_spec (resolveId : String → Option PartialResolvedId)
    (g : EnvironmentModuleGraph) (u : String) (sisa : Bool) (hmaps : MapsOk g) :
    g.nodes.length ≤ (EnvironmentModuleGraph.ensureEntryFromUrl resolveId g u sisa).1.nodes.length ∧
    (EnvironmentModuleGraph.ensureEntryFromUrl resolveId g u sisa).2
      < (EnvironmentModuleGraph.ensureEntryFromUrl resolveId g u sisa).1.nodes.length ∧
    MapsOk (EnvironmentModuleGraph.ensureEntryFromUrl resolveId g u sisa).1 ∧
    (∀ j, j < g.nodes.length →
      (EnvironmentModuleGraph.ensureEntryFromUrl resolveId g u sisa).1.nodeAt j = g.nodeAt j) ∧
    (∀ j, g.nodes.length ≤ j →
      ((EnvironmentModuleGraph.ensureEntryFromUrl resolveId g u sisa).1.nodeAt j).importers = [] ∧
      ((EnvironmentModuleGraph.ensureEntryFromUrl resolveId g u sisa).1.nodeAt j).importedModules = []) ∧
    (EnvironmentModuleGraph.ensureEntryFromUrl resolveId g u sisa).1.environment = g.environment := by
  obtain ⟨hid, hunres, hurl, hetag, hfile⟩ := hmaps
  unfold EnvironmentModuleGraph.ensureEntryFromUrl
  cases hcache : g.unresolvedUrlToModuleMap.lookup (removeImportQuery (removeTimestampQuery u)) with
  | some mcached =>
    simp only [hcache]
    refine ⟨le_refl _, hunres _ (lookup_mem hcache), ⟨hid, hunres, hurl, hetag, hfile⟩,
      ?_, ?_, ?_⟩
    · intro j hj
      trivial
    · intro j hj
      rw [nodeAt_oob g j hj]
      exact ⟨rfl, rfl⟩
    · trivial
  | none =>
    simp only [hcache]
    cases hidlk : g.idToModuleMap.lookup
        (EnvironmentModuleGraph.resolveUrl0 resolveId
          (removeImportQuery (removeTimestampQuery u)) none).2.1 with
    | some mfound =>
      simp only [hidlk]
      have hm := hid _ (lookup_mem hidlk)
      by_cases hc : (List.lookup
          (EnvironmentModuleGraph.resolveUrl0 resolveId
            (removeImportQuery (removeTimestampQuery u)) none).1
          g.urlToModuleMap).isNone = true
      · simp only [if_pos hc]
        refine ⟨le_refl _, hm, ⟨?_, ?_, ?_, ?_, ?_⟩, ?_, ?_, ?_⟩
        · intro p hp
          simpa using hid p hp
        · intro p hp
          simp only [mapSet] at hp
          rcases List.mem_cons.mp hp with rfl | hp'
          · simpa using hm
          · simpa using hunres p (List.mem_filter.mp hp').1
        · intro p hp
          simp only [mapSet] at hp
          rcases List.mem_cons.mp hp with rfl | hp'
          · simpa using hm
          · simpa using hurl p (List.mem_filter.mp hp').1
        · intro p hp
          simpa using hetag p hp
        · intro p hp
          simpa using hfile p hp
        · intro j _
          rfl
        · intro j hj
          have h0 : (g.nodeAt j).importers = [] ∧ (g.nodeAt j).importedModules = [] := by
            rw [nodeAt_oob g j hj]
            exact ⟨rfl, rfl⟩
          exact h0
        · trivial
      · simp only [if_neg hc]
        refine ⟨le_refl _, hm, ⟨?_, ?_, ?_, ?_, ?_⟩, ?_, ?_, ?_⟩
        · intro p hp
          simpa using hid p hp
        · intro p hp
          simp only [mapSet] at hp
          rcases List.mem_cons.mp hp with rfl | hp'
          · simpa using hm
          · simpa using hunres p (List.mem_filter.mp hp').1
        · intro p hp
          simpa using hurl p hp
        · intro p hp
          simpa using hetag p hp
        · intro p hp
          simpa using hfile p hp
        · intro j _
          rfl
        · intro j hj
          have h0 : (g.nodeAt j).importers = [] ∧ (g.nodeAt j).importedModules = [] := by
            rw [nodeAt_oob g j hj]
            exact ⟨rfl, rfl⟩
          exact h0
        · trivial
    | none =>
      simp only [hidlk]
      refine ⟨by simp [EnvironmentModuleGraph.fileMapAdd], ?_, ?_, ?_, ?_, ?_⟩
      · simp [EnvironmentModuleGraph.fileMapAdd]
      · refine ⟨?_, ?_, ?_, ?_, ?_⟩
        · intro p hp
          simp only [EnvironmentModuleGraph.fileMapAdd, mapSet] at hp ⊢
          rcases List.mem_cons.mp hp with rfl | hp'
          · simp
          · have := hid p (List.mem_filter.mp hp').1
            simp
            omega
        · intro p hp
          simp only [EnvironmentModuleGraph.fileMapAdd, mapSet] at hp ⊢
          rcases List.mem_cons.mp hp with rfl | hp'
          · simp
          · have := hunres p (List.mem_filter.mp hp').1
            simp
            omega
        · intro p hp
          simp only [EnvironmentModuleGraph.fileMapAdd, mapSet] at hp ⊢
          rcases List.mem_cons.mp hp with rfl | hp'
          · simp
          · have := hurl p (List.mem_filter.mp hp').1
            simp
            omega
        · intro p hp
          simp only [EnvironmentModuleGraph.fileMapAdd, mapSet] at hp ⊢
          have := hetag p hp
          simp
          omega
        · intro p hp
          simp only [EnvironmentModuleGraph.fileMapAdd,
            EnvironmentModuleGraph.fileMapInsert, mapSet] at hp ⊢
          rcases List.mem_cons.mp hp with rfl | hp'
          · intro j hj
            simp only [List.length_append, List.length_cons, List.length_nil]
            rcases mem_addToSet_lookup hfile hj with h | rfl
            · omega
            · omega
          · intro j hj
            have := hfile p (List.mem_filter.mp hp').1 j hj
            simp only [List.length_append, List.length_cons, List.length_nil]
            omega
      · intro j hj
        simp only [EnvironmentModuleGraph.fileMapAdd]
        rw [EnvironmentModuleGraph.nodeAt]
        simp only []
        rw [List.getD_eq_getElem?_getD, List.getElem?_append_left hj,
          ← List.getD_eq_getElem?_getD]
        rfl
      · intro j hj
        by_cases hje : j = g.nodes.length
        · subst hje
          simp only [EnvironmentModuleGraph.fileMapAdd]
          rw [EnvironmentModuleGraph.nodeAt]
          simp only []
          rw [List.getD_eq_getElem?_getD, List.getElem?_concat_length]
          exact ⟨rfl, rfl⟩
        · have hjg : g.nodes.length + 1 ≤ j := by omega
          simp only [EnvironmentModuleGraph.fileMapAdd]
          rw [EnvironmentModuleGraph.nodeAt]
          simp only []
          rw [List.getD_eq_getElem?_getD, List.getElem?_eq_none (by simpa using hjg)]
          exact ⟨rfl, rfl⟩
      · simp [EnvironmentModuleGraph.fileMapAdd]

/-- C3 witness: the amended statement at the concrete null resolver. -/
theorem C3_witness :
    (EnvironmentModuleGraph.ensureEntryFromUrl nullResolver emptyClientGraph "/lib/a.js").2 = 0 ∧
    (EnvironmentModuleGraph.ensureEntryFromUrl nullResolver emptyClientGraph "/lib/a.js").1.nodes.length = 1 ∧
    ((EnvironmentModuleGraph.ensureEntryFromUrl nullResolver emptyClientGraph "/lib/a.js").1.nodeAt 0).id
      = some (removeImportQuery (removeTimestampQuery "/lib/a.js")) ∧
    (EnvironmentModuleGraph.ensureEntryFromUrl nullResolver emptyClientGraph "/lib/a.js").1.idToModuleMap.lookup
      (removeImportQuery (removeTimestampQuery "/lib/a.js")) = some 0 :=
  C3_theorem nullResolver emptyClientGraph "/lib/a.js" rfl rfl rfl

theorem mem_delFromSet {l : List Nat} {x y : Nat} :
    x ∈ delFromSet l y ↔ x ∈ l ∧ x ≠ y := by
  simp [delFromSet, List.mem_filter]

theorem mem_dedup : ∀ {l : List Nat} {x : Nat}, x ∈ dedup l ↔ x ∈ l := by
  intro l
  induction l with
  | nil => intro x; exact Iff.rfl
  | cons a t ih =>
    intro x
    rw [dedup]
    simp only [List.mem_cons, List.mem_filter, ih, ne_eq, decide_eq_true_eq]
    constructor
    · rintro (rfl | ⟨h, _⟩)
      · exact Or.inl rfl
      · exact Or.inr h
    · rintro (rfl | h)
      · exact Or.inl rfl
      · by_cases hxa : x = a
        · exact Or.inl hxa
        · exact Or.inr ⟨h, hxa⟩

theorem nodeAt_oob_edges (g : EnvironmentModuleGraph) (j : Nat)
    (h : g.nodes.length ≤ j) :
    (g.nodeAt j).importers = [] ∧ (g.nodeAt j).importedModules = [] := by
  rw [nodeAt_oob g j h]
  exact ⟨rfl, rfl⟩

theorem nodeAt_lt (g : EnvironmentModuleGraph) (a : Nat) (h : a < g.nodes.length) :
    g.nodeAt a = g.nodes[a] := by
  rw [EnvironmentModuleGraph.nodeAt, List.getD_eq_getElem?_getD,
    List.getElem?_eq_getElem h]
  rfl

theorem nodeAt_modifyNode (g : EnvironmentModuleGraph) (i : Nat)
    (f : EnvironmentModuleNode → EnvironmentModuleNode) (j : Nat) :
    (g.modifyNode i f).nodeAt j =
      if j = i ∧ i < g.nodes.length then f (g.nodeAt i) else g.nodeAt j := by
  by_cases hlen : i < g.nodes.length
  · by_cases hij : j = i
    · subst hij
      rw [EnvironmentModuleGraph.modifyNode, nodeAt_setNode_self _ _ _ hlen,
        if_pos ⟨rfl, hlen⟩]
    · rw [EnvironmentModuleGraph.modifyNode, nodeAt_setNode_ne _ _ _ _ hij,
        if_neg (by tauto)]
  · have hset : (g.modifyNode i f).nodeAt j = g.nodeAt j := by
      rw [EnvironmentModuleGraph.modifyNode, EnvironmentModuleGraph.setNode]
      simp [EnvironmentModuleGraph.nodeAt,
        List.set_eq_of_length_le (Nat.le_of_not_lt hlen)]
    rw [hset, if_neg (by tauto)]

theorem length_modifyNode (g : EnvironmentModuleGraph) (i : Nat)
    (f : EnvironmentModuleNode → EnvironmentModuleNode) :
    (g.modifyNode i f).nodes.length = g.nodes.length := by
  rw [EnvironmentModuleGraph.modifyNode]
  exact length_setNode g i _

theorem modifyNode_maps (g : EnvironmentModuleGraph) (i : Nat)
    (f : EnvironmentModuleNode → EnvironmentModuleNode) :
    (g.modifyNode i f).idToModuleMap = g.idToModuleMap ∧
    (g.modifyNode i f).unresolvedUrlToModuleMap = g.unresolvedUrlToModuleMap ∧
    (g.modifyNode i f).urlToModuleMap = g.urlToModuleMap ∧
    (g.modifyNode i f).etagToModuleMap = g.etagToModuleMap ∧
    (g.modifyNode i f).fileToModulesMap = g.fileToModulesMap :=
  ⟨rfl, rfl, rfl, rfl, rfl⟩

/-- `MapsOk` only depends on the five tables and the arena length. -/
theorem MapsOk_transfer {g g₂ : EnvironmentModuleGraph}
    (h1 : g₂.idToModuleMap = g.idToModuleMap)
    (h2 : g₂.unresolvedUrlToModuleMap = g.unresolvedUrlToModuleMap)
    (h3 : g₂.urlToModuleMap = g.urlToModuleMap)
    (h4 : g₂.etagToModuleMap = g.etagToModuleMap)
    (h5 : g₂.fileToModulesMap = g.fileToModulesMap)
    (hl : g₂.nodes.length = g.nodes.length)
    (hM : MapsOk g) : MapsOk g₂ := by
  obtain ⟨m1, m2, m3, m4, m5⟩ := hM
  refine ⟨?_, ?_, ?_, ?_, ?_⟩
  · intro p hp
    rw [hl]
    exact m1 p (h1 ▸ hp)
  · intro p hp
    rw [hl]
    exact m2 p (h2 ▸ hp)
  · intro p hp
    rw [hl]
    exact m3 p (h3 ▸ hp)
  · intro p hp
    rw [hl]
    exact m4 p (h4 ▸ hp)
  · intro p hp j hj
    rw [hl]
    exact m5 p (h5 ▸ hp) j hj

/-- Proposition form of `edgeHalfSymmetric`: the direction of edge symmetry
that survives an unlink. -/
def HalfOk (g : EnvironmentModuleGraph) : Prop :=
  ∀ a b, a ∈ (g.nodeAt b).importers → b ∈ (g.nodeAt a).importedModules

theorem mapsValid_iff (g : EnvironmentModuleGraph) :
    mapsValid g = true ↔ MapsOk g := by
  rw [mapsValid, MapsOk]
  simp only [Bool.and_eq_true, List.all_eq_true, decide_eq_true_eq]
  tauto

theorem edgesValid_iff (g : EnvironmentModuleGraph) :
    edgesValid g = true ↔ EdgesOk g := by
  rw [edgesValid]
  simp only [List.all_eq_true, List.mem_append, decide_eq_true_eq]
  constructor
  · intro h a
    by_cases ha : a < g.nodes.length
    · have hmem : g.nodeAt a ∈ g.nodes := by
        rw [nodeAt_lt g a ha]
        exact List.getElem_mem ha
      have h2 := h _ hmem
      exact ⟨fun x hx => h2 x (Or.inl hx), fun x hx => h2 x (Or.inr hx)⟩
    · have he := nodeAt_oob_edges g a (Nat.le_of_not_lt ha)
      constructor
      · intro x hx
        rw [he.1] at hx
        cases hx
      · intro x hx
        rw [he.2] at hx
        cases hx
  · intro h n hn x hx
    obtain ⟨a, ha, rfl⟩ := List.mem_iff_getElem.mp hn
    have hna : g.nodeAt a = g.nodes[a] := nodeAt_lt g a ha
    rcases hx with hx | hx
    · exact (h a).1 x (by rw [hna]; exact hx)
    · exact (h a).2 x (by rw [hna]; exact hx)

/-- Unrestricted symmetry forces every edge entry to be a live index (an edge
to a missing node could not be mirrored, missing nodes having no edges). -/
theorem EdgesOk_of_SymOk {g : EnvironmentModuleGraph} (hS : SymOk g) :
    EdgesOk g := by
  intro a
  constructor
  · intro x hx
    by_contra hge
    have hmem : a ∈ (g.nodeAt x).importedModules := (hS x a).mpr hx
    rw [(nodeAt_oob_edges g x (Nat.le_of_not_lt hge)).2] at hmem
    cases hmem
  · intro x hx
    by_contra hge
    have hmem : a ∈ (g.nodeAt x).importers := (hS a x).mp hx
    rw [(nodeAt_oob_edges g x (Nat.le_of_not_lt hge)).1] at hmem
    cases hmem

theorem edgeSymmetric_iff (g : EnvironmentModuleGraph) (hE : EdgesOk g) :
    edgeSymmetric g = true ↔ SymOk g := by
  have boolExt : ∀ (x y : Bool), (x = true ↔ y = true) → x = y := by decide
  rw [edgeSymmetric]
  simp only [List.all_eq_true, List.mem_range, decide_eq_true_eq]
  constructor
  · intro h a b
    by_cases ha : a < g.nodes.length
    · by_cases hb : b < g.nodes.length
      · have h2 := h a ha b hb
        constructor
        · intro hmem
          exact (contains_iff_mem _ _).mp (h2 ▸ (contains_iff_mem _ _).mpr hmem)
        · intro hmem
          exact (contains_iff_mem _ _).mp (h2.symm ▸ (contains_iff_mem _ _).mpr hmem)
      · constructor
        · intro hmem
          exact absurd ((hE a).2 b hmem) hb
        · intro hmem
          rw [(nodeAt_oob_edges g b (Nat.le_of_not_lt hb)).1] at hmem
          cases hmem
    · constructor
      · intro hmem
        rw [(nodeAt_oob_edges g a (Nat.le_of_not_lt ha)).2] at hmem
        cases hmem
      · intro hmem
        exact absurd ((hE b).1 a hmem) ha
  · intro h a _ b _
    apply boolExt
    constructor
    · intro hc
      exact (contains_iff_mem _ _).mpr ((h a b).mp ((contains_iff_mem _ _).mp hc))
    · intro hc
      exact (contains_iff_mem _ _).mpr ((h a b).mpr ((contains_iff_mem _ _).mp hc))

theorem edgeHalfSymmetric_of (g : EnvironmentModuleGraph) (h : HalfOk g) :
    edgeHalfSymmetric g = true := by
  rw [edgeHalfSymmetric]
  simp only [List.all_eq_true, List.mem_range]
  intro a _ b _
  cases hc : (g.nodeAt b).importers.contains a with
  | false => simp [hc]
  | true =>
    have hm := h a b ((contains_iff_mem _ _).mp hc)
    simp [hc]
    exact hm

/-- Invalidation frames keep both edge sets of every node, so symmetry
transfers. -/
theorem SymOk_of_frame {g g₂ : EnvironmentModuleGraph}
    (h : invalidationFrame g g₂) (hS : SymOk g) : SymOk g₂ := by
  intro a b
  have ha := h.2.2.2.2.2 a
  have hb := h.2.2.2.2.2 b
  rw [ha.2.2.2.2.2.2.2.1, hb.2.2.2.2.2.2.1]
  exact hS a b

theorem addImporterTo_length (g : EnvironmentModuleGraph) (dep m : Nat) :
    (g.addImporterTo dep m).nodes.length = g.nodes.length :=
  length_modifyNode g dep _

theorem addImporterTo_maps (g : EnvironmentModuleGraph) (dep m : Nat) :
    (g.addImporterTo dep m).idToModuleMap = g.idToModuleMap ∧
    (g.addImporterTo dep m).unresolvedUrlToModuleMap = g.unresolvedUrlToModuleMap ∧
    (g.addImporterTo dep m).urlToModuleMap = g.urlToModuleMap ∧
    (g.addImporterTo dep m).etagToModuleMap = g.etagToModuleMap ∧
    (g.addImporterTo dep m).fileToModulesMap = g.fileToModulesMap :=
  ⟨rfl, rfl, rfl, rfl, rfl⟩

theorem addImporterTo_imported (g : EnvironmentModuleGraph) (dep m j : Nat) :
    ((g.addImporterTo dep m).nodeAt j).importedModules =
      (g.nodeAt j).importedModules := by
  rw [EnvironmentModuleGraph.addImporterTo, nodeAt_modifyNode]
  split
  · rename_i hcond
    obtain ⟨rfl, _⟩ := hcond
    rfl
  · rfl

theorem addImporterTo_importers (g : EnvironmentModuleGraph) (dep m : Nat)
    (hdep : dep < g.nodes.length) (j x : Nat) :
    x ∈ ((g.addImporterTo dep m).nodeAt j).importers ↔
      x ∈ (g.nodeAt j).importers ∨ (x = m ∧ j = dep) := by
  rw [EnvironmentModuleGraph.addImporterTo, nodeAt_modifyNode]
  by_cases hj : j = dep
  · subst hj
    rw [if_pos ⟨rfl, hdep⟩]
    show x ∈ addToSet (g.nodeAt j).importers m ↔ _
    rw [mem_addToSet]
    tauto
  · rw [if_neg (by tauto)]
    tauto

theorem delImporterFrom_length (g : EnvironmentModuleGraph) (dep m : Nat) :
    (g.delImporterFrom dep m).nodes.length = g.nodes.length :=
  length_modifyNode g dep _

theorem delImporterFrom_maps (g : EnvironmentModuleGraph) (dep m : Nat) :
    (g.delImporterFrom dep m).idToModuleMap = g.idToModuleMap ∧
    (g.delImporterFrom dep m).unresolvedUrlToModuleMap = g.unresolvedUrlToModuleMap ∧
    (g.delImporterFrom dep m).urlToModuleMap = g.urlToModuleMap ∧
    (g.delImporterFrom dep m).etagToModuleMap = g.etagToModuleMap ∧
    (g.delImporterFrom dep m).fileToModulesMap = g.fileToModulesMap :=
  ⟨rfl, rfl, rfl, rfl, rfl⟩

theorem delImporterFrom_imported (g : EnvironmentModuleGraph) (dep m j : Nat) :
    ((g.delImporterFrom dep m).nodeAt j).importedModules =
      (g.nodeAt j).importedModules := by
  rw [EnvironmentModuleGraph.delImporterFrom, nodeAt_modifyNode]
  split
  · rename_i hcond
    obtain ⟨rfl, _⟩ := hcond
    rfl
  · rfl

theorem delImporterFrom_importers (g : EnvironmentModuleGraph) (dep m j x : Nat) :
    x ∈ ((g.delImporterFrom dep m).nodeAt j).importers ↔
      x ∈ (g.nodeAt j).importers ∧ ¬(x = m ∧ j = dep) := by
  rw [EnvironmentModuleGraph.delImporterFrom, nodeAt_modifyNode]
  by_cases hj : j = dep
  · subst hj
    by_cases hlen : j < g.nodes.length
    · rw [if_pos ⟨rfl, hlen⟩]
      show x ∈ delFromSet (g.nodeAt j).importers m ↔ _
      rw [mem_delFromSet]
      tauto
    · rw [if_neg (by tauto)]
      rw [(nodeAt_oob_edges g j (Nat.le_of_not_lt hlen)).1]
      simp
  · rw [if_neg (by tauto)]
    tauto

/-- A step that can only remove `importers` entries, keeping `importedModules`,
the tables and the arena length. -/
def EdgeShrink (g g₂ : EnvironmentModuleGraph) : Prop :=
  g₂.nodes.length = g.nodes.length ∧
  (∀ j, (g₂.nodeAt j).importedModules = (g.nodeAt j).importedModules) ∧
  (∀ j x, x ∈ (g₂.nodeAt j).importers → x ∈ (g.nodeAt j).importers)

theorem edgeShrink_refl (g : EnvironmentModuleGraph) : EdgeShrink g g :=
  ⟨rfl, fun _ => rfl, fun _ _ h => h⟩

theorem edgeShrink_trans {g₀ g₁ g₂ : EnvironmentModuleGraph}
    (h₁ : EdgeShrink g₀ g₁) (h₂ : EdgeShrink g₁ g₂) : EdgeShrink g₀ g₂ :=
  ⟨h₂.1.trans h₁.1, fun j => (h₂.2.1 j).trans (h₁.2.1 j),
    fun j x hx => h₁.2.2 j x (h₂.2.2 j x hx)⟩

theorem delImporterFrom_shrink (g : EnvironmentModuleGraph) (dep m : Nat) :
    EdgeShrink g (g.delImporterFrom dep m) :=
  ⟨delImporterFrom_length g dep m, delImporterFrom_imported g dep m,
    fun j x hx => ((delImporterFrom_importers g dep m j x).mp hx).1⟩

theorem edgeShrink_foldl {α : Type} (f : EnvironmentModuleGraph → α → EnvironmentModuleGraph)
    (hf : ∀ g a, EdgeShrink g (f g a)) :
    ∀ (l : List α) (g : EnvironmentModuleGraph), EdgeShrink g (l.foldl f g) := by
  intro l
  induction l with
  | nil => intro g; exact edgeShrink_refl g
  | cons a t ih =>
    intro g
    rw [List.foldl_cons]
    exact edgeShrink_trans (hf g a) (ih (f g a))

theorem handleFileUnlinkEdges_shrink (g : EnvironmentModuleGraph) (file : String) :
    EdgeShrink g (handleFileUnlinkEdges g file) := by
  rw [handleFileUnlinkEdges]
  apply edgeShrink_foldl
  intro g₁ dm
  apply edgeShrink_foldl
  intro g₂ im
  exact delImporterFrom_shrink g₂ im dm

theorem halfOk_of_shrink {g g₂ : EnvironmentModuleGraph}
    (h : EdgeShrink g g₂) (hS : SymOk g) : HalfOk g₂ := by
  intro a b hab
  rw [h.2.1 a]
  exact (hS a b).mpr (h.2.2 b a hab)

/-- Edge-level consequences of `ensureEntryFromUrl_spec`: the operation never
touches any node's edge sets (fresh nodes start with empty ones). -/
theorem ensure_edges (resolveId : String → Option PartialResolvedId)
    (g : EnvironmentModuleGraph) (u : String) (sisa : Bool) (hM : MapsOk g) :
    MapsOk (EnvironmentModuleGraph.ensureEntryFromUrl resolveId g u sisa).1 ∧
    g.nodes.length ≤ (EnvironmentModuleGraph.ensureEntryFromUrl resolveId g u sisa).1.nodes.length ∧
    (EnvironmentModuleGraph.ensureEntryFromUrl resolveId g u sisa).2
      < (EnvironmentModuleGraph.ensureEntryFromUrl resolveId g u sisa).1.nodes.length ∧
    (∀ j, ((EnvironmentModuleGraph.ensureEntryFromUrl resolveId g u sisa).1.nodeAt j).importers
        = (g.nodeAt j).importers ∧
      ((EnvironmentModuleGraph.ensureEntryFromUrl resolveId g u sisa).1.nodeAt j).importedModules
        = (g.nodeAt j).importedModules) := by
  obtain ⟨hlen, hidx, hmaps, hkeep, hnew, _⟩ := ensureEntryFromUrl_spec resolveId g u sisa hM
  refine ⟨hmaps, hlen, hidx, fun j => ?_⟩
  by_cases hj : j < g.nodes.length
  · rw [hkeep j hj]
    exact ⟨rfl, rfl⟩
  · obtain ⟨h1, h2⟩ := hnew j (Nat.le_of_not_lt hj)
    obtain ⟨h3, h4⟩ := nodeAt_oob_edges g j (Nat.le_of_not_lt hj)
    exact ⟨h1.trans h3.symm, h2.trans h4.symm⟩

/-- Invariant of the `importedModules` resolution loop of `updateModuleInfo`:
the loop may append fresh nodes, appends the resolved deps to the accumulator,
adds `m` to exactly those deps' `importers`, and touches nothing else. -/
theorem resolveImported_fold (resolveId : String → Option PartialResolvedId) (m : Nat) :
    ∀ (entries : List (Sum String Nat)) (G : EnvironmentModuleGraph) (rs : List Nat),
      MapsOk G → m < G.nodes.length →
      (∀ d, Sum.inr d ∈ entries → d < G.nodes.length) →
      ∃ ext : List Nat,
        (entries.foldl (EnvironmentModuleGraph.resolveImportedEntry resolveId m) (G, rs)).2
          = rs ++ ext ∧
        MapsOk (entries.foldl (EnvironmentModuleGraph.resolveImportedEntry resolveId m) (G, rs)).1 ∧
        G.nodes.length ≤
          (entries.foldl (EnvironmentModuleGraph.resolveImportedEntry resolveId m) (G, rs)).1.nodes.length ∧
        (∀ r ∈ ext, r <
          (entries.foldl (EnvironmentModuleGraph.resolveImportedEntry resolveId m) (G, rs)).1.nodes.length) ∧
        (∀ j, ((entries.foldl (EnvironmentModuleGraph.resolveImportedEntry resolveId m) (G, rs)).1.nodeAt j).importedModules
            = (G.nodeAt j).importedModules) ∧
        (∀ j x, x ∈ ((entries.foldl (EnvironmentModuleGraph.resolveImportedEntry resolveId m) (G, rs)).1.nodeAt j).importers ↔
          x ∈ (G.nodeAt j).importers ∨ (x = m ∧ j ∈ ext)) := by
  intro entries
  induction entries with
  | nil =>
    intro G rs hM hm _
    exact ⟨[], by simp, hM, le_refl _, by simp, fun j => rfl, fun j x => by simp⟩
  | cons e es ih =>
    intro G rs hM hm hinr
    rw [List.foldl_cons]
    cases e with
    | inl s =>
      simp only [EnvironmentModuleGraph.resolveImportedEntry]
      obtain ⟨hM₁, hlen₁, hidx₁, hedges₁⟩ := ensure_edges resolveId G s true hM
      have hlen₂ : (((EnvironmentModuleGraph.ensureEntryFromUrl resolveId G s true).1.addImporterTo
            (EnvironmentModuleGraph.ensureEntryFromUrl resolveId G s true).2 m)).nodes.length
          = (EnvironmentModuleGraph.ensureEntryFromUrl resolveId G s true).1.nodes.length :=
        addImporterTo_length _ _ _
      have hM₂ : MapsOk ((EnvironmentModuleGraph.ensureEntryFromUrl resolveId G s true).1.addImporterTo
          (EnvironmentModuleGraph.ensureEntryFromUrl resolveId G s true).2 m) := by
        obtain ⟨a1, a2, a3, a4, a5⟩ := addImporterTo_maps
          (EnvironmentModuleGraph.ensureEntryFromUrl resolveId G s true).1
          (EnvironmentModuleGraph.ensureEntryFromUrl resolveId G s true).2 m
        exact MapsOk_transfer a1 a2 a3 a4 a5 hlen₂ hM₁
      obtain ⟨ext, heq, hM3, hlen3, hbound3, himp3, himps3⟩ :=
        ih ((EnvironmentModuleGraph.ensureEntryFromUrl resolveId G s true).1.addImporterTo
            (EnvironmentModuleGraph.ensureEntryFromUrl resolveId G s true).2 m)
          (rs ++ [(EnvironmentModuleGraph.ensureEntryFromUrl resolveId G s true).2])
          hM₂ (by omega) (fun d hd => by
            have := hinr d (List.mem_cons_of_mem _ hd)
            omega)
      refine ⟨(EnvironmentModuleGraph.ensureEntryFromUrl resolveId G s true).2 :: ext,
        ?_, hM3, by omega, ?_, ?_, ?_⟩
      · rw [heq, List.append_assoc]
        rfl
      · intro r hr
        rcases List.mem_cons.mp hr with rfl | hr
        · omega
        · exact hbound3 r hr
      · intro j
        rw [himp3 j, addImporterTo_imported, (hedges₁ j).2]
      · intro j x
        rw [himps3 j x,
          addImporterTo_importers _ _ m (by omega) j x, (hedges₁ j).1]
        simp only [List.mem_cons]
        tauto
    | inr dep =>
      simp only [EnvironmentModuleGraph.resolveImportedEntry]
      have hdep : dep < G.nodes.length := hinr dep (List.mem_cons_self _ _)
      have hlen₂ : (G.addImporterTo dep m).nodes.length = G.nodes.length :=
        addImporterTo_length _ _ _
      have hM₂ : MapsOk (G.addImporterTo dep m) := by
        obtain ⟨a1, a2, a3, a4, a5⟩ := addImporterTo_maps G dep m
        exact MapsOk_transfer a1 a2 a3 a4 a5 hlen₂ hM
      obtain ⟨ext, heq, hM3, hlen3, hbound3, himp3, himps3⟩ :=
        ih (G.addImporterTo dep m) (rs ++ [dep]) hM₂ (by omega)
          (fun d hd => by
            have := hinr d (List.mem_cons_of_mem _ hd)
            omega)
      refine ⟨dep :: ext, ?_, hM3, by omega, ?_, ?_, ?_⟩
      · rw [heq, List.append_assoc]
        rfl
      · intro r hr
        rcases List.mem_cons.mp hr with rfl | hr
        · omega
        · exact hbound3 r hr
      · intro j
        rw [himp3 j, addImporterTo_imported]
      · intro j x
        rw [himps3 j x, addImporterTo_importers _ _ m hdep j x]
        simp only [List.mem_cons]
        tauto

/-- One step of the stale-importer deletion loop of `updateModuleInfo`. -/
def deleteImporterStep (m : Nat) (p : EnvironmentModuleGraph × List Nat)
    (dep : Nat) : EnvironmentModuleGraph × List Nat :=
  if (p.1.nodeAt m).importedModules.contains dep then p
  else
    let g := EnvironmentModuleGraph.delImporterFrom p.1 dep m
    if (g.nodeAt dep).importers.isEmpty then (g, p.2 ++ [dep]) else (g, p.2)

/-- Invariant of the stale-importer deletion loop of `updateModuleInfo`: it
removes `m` from the `importers` of exactly the processed deps that are not in
`m`'s (new) `importedModules`, and touches nothing else. -/
theorem deleteImporters_fold (m : Nat) :
    ∀ (deps : List Nat) (G : EnvironmentModuleGraph) (acc : List Nat),
      (deps.foldl (deleteImporterStep m) (G, acc)).1.nodes.length = G.nodes.length ∧
      (deps.foldl (deleteImporterStep m) (G, acc)).1.idToModuleMap = G.idToModuleMap ∧
      (deps.foldl (deleteImporterStep m) (G, acc)).1.unresolvedUrlToModuleMap
        = G.unresolvedUrlToModuleMap ∧
      (deps.foldl (deleteImporterStep m) (G, acc)).1.urlToModuleMap = G.urlToModuleMap ∧
      (deps.foldl (deleteImporterStep m) (G, acc)).1.etagToModuleMap = G.etagToModuleMap ∧
      (deps.foldl (deleteImporterStep m) (G, acc)).1.fileToModulesMap = G.fileToModulesMap ∧
      (∀ j, ((deps.foldl (deleteImporterStep m) (G, acc)).1.nodeAt j).importedModules
        = (G.nodeAt j).importedModules) ∧
      (∀ j x, x ∈ ((deps.foldl (deleteImporterStep m) (G, acc)).1.nodeAt j).importers ↔
        x ∈ (G.nodeAt j).importers ∧
          ¬(x = m ∧ j ∈ deps ∧ j ∉ (G.nodeAt m).importedModules)) := by
  intro deps
  induction deps with
  | nil =>
    intro G acc
    exact ⟨rfl, rfl, rfl, rfl, rfl, rfl, fun j => rfl, fun j x => by simp⟩
  | cons dep rest ih =>
    intro G acc
    rw [List.foldl_cons]
    by_cases hc : (G.nodeAt m).importedModules.contains dep = true
    · have hdepM : dep ∈ (G.nodeAt m).importedModules := (contains_iff_mem _ _).mp hc
      have hstep : deleteImporterStep m (G, acc) dep = (G, acc) := by
        rw [deleteImporterStep, if_pos hc]
      rw [hstep]
      obtain ⟨l1, l2, l3, l4, l5, l6, l7, l8⟩ := ih G acc
      refine ⟨l1, l2, l3, l4, l5, l6, l7, fun j x => ?_⟩
      rw [l8 j x]
      simp only [List.mem_cons]
      constructor
      · rintro ⟨hx, hneg⟩
        refine ⟨hx, ?_⟩
        rintro ⟨hxm, hj, hjM⟩
        rcases hj with rfl | hj
        · exact hjM hdepM
        · exact hneg ⟨hxm, hj, hjM⟩
      · rintro ⟨hx, hneg⟩
        refine ⟨hx, ?_⟩
        rintro ⟨hxm, hj, hjM⟩
        exact hneg ⟨hxm, Or.inr hj, hjM⟩
    · have hdepM : dep ∉ (G.nodeAt m).importedModules := by
        intro hmem
        exact hc ((contains_iff_mem _ _).mpr hmem)
      have conv : ∀ acc₂ : List Nat,
          (rest.foldl (deleteImporterStep m)
            (EnvironmentModuleGraph.delImporterFrom G dep m, acc₂)).1.nodes.length
              = G.nodes.length ∧
          (rest.foldl (deleteImporterStep m)
            (EnvironmentModuleGraph.delImporterFrom G dep m, acc₂)).1.idToModuleMap
              = G.idToModuleMap ∧
          (rest.foldl (deleteImporterStep m)
            (EnvironmentModuleGraph.delImporterFrom G dep m, acc₂)).1.unresolvedUrlToModuleMap
              = G.unresolvedUrlToModuleMap ∧
          (rest.foldl (deleteImporterStep m)
            (EnvironmentModuleGraph.delImporterFrom G dep m, acc₂)).1.urlToModuleMap
              = G.urlToModuleMap ∧
          (rest.foldl (deleteImporterStep m)
            (EnvironmentModuleGraph.delImporterFrom G dep m, acc₂)).1.etagToModuleMap
              = G.etagToModuleMap ∧
          (rest.foldl (deleteImporterStep m)
            (EnvironmentModuleGraph.delImporterFrom G dep m, acc₂)).1.fileToModulesMap
              = G.fileToModulesMap ∧
          (∀ j, ((rest.foldl (deleteImporterStep m)
            (EnvironmentModuleGraph.delImporterFrom G dep m, acc₂)).1.nodeAt j).importedModules
              = (G.nodeAt j).importedModules) ∧
          (∀ j x, x ∈ ((rest.foldl (deleteImporterStep m)
            (EnvironmentModuleGraph.delImporterFrom G dep m, acc₂)).1.nodeAt j).importers ↔
            x ∈ (G.nodeAt j).importers ∧
              ¬(x = m ∧ j ∈ dep :: rest ∧ j ∉ (G.nodeAt m).importedModules)) := by
        intro acc₂
        obtain ⟨l1, l2, l3, l4, l5, l6, l7, l8⟩ :=
          ih (EnvironmentModuleGraph.delImporterFrom G dep m) acc₂
        obtain ⟨d1, d2, d3, d4, d5⟩ := delImporterFrom_maps G dep m
        refine ⟨l1.trans (delImporterFrom_length G dep m), l2.trans d1, l3.trans d2,
          l4.trans d3, l5.trans d4, l6.trans d5,
          fun j => (l7 j).trans (delImporterFrom_imported G dep m j), fun j x => ?_⟩
        rw [l8 j x, delImporterFrom_imported G dep m m,
          delImporterFrom_importers G dep m j x]
        simp only [List.mem_cons]
        constructor
        · rintro ⟨⟨hx, hnd⟩, hnr⟩
          refine ⟨hx, ?_⟩
          rintro ⟨hxm, hj, hjM⟩
          rcases hj with rfl | hj
          · exact hnd ⟨hxm, rfl⟩
          · exact hnr ⟨hxm, hj, hjM⟩
        · rintro ⟨hx, hneg⟩
          refine ⟨⟨hx, ?_⟩, ?_⟩
          · rintro ⟨hxm, rfl⟩
            exact hneg ⟨hxm, Or.inl rfl, hdepM⟩
          · rintro ⟨hxm, hj, hjM⟩
            exact hneg ⟨hxm, Or.inr hj, hjM⟩
      cases hemp : ((EnvironmentModuleGraph.delImporterFrom G dep m).nodeAt dep).importers.isEmpty with
      | true =>
        have hstep : deleteImporterStep m (G, acc) dep =
            (EnvironmentModuleGraph.delImporterFrom G dep m, acc ++ [dep]) := by
          rw [deleteImporterStep, if_neg hc]
          show (if ((EnvironmentModuleGraph.delImporterFrom G dep m).nodeAt dep).importers.isEmpty
              then (EnvironmentModuleGraph.delImporterFrom G dep m, acc ++ [dep])
              else (EnvironmentModuleGraph.delImporterFrom G dep m, acc)) = _
          rw [if_pos hemp]
        rw [hstep]
        exact conv (acc ++ [dep])
      | false =>
        have hstep : deleteImporterStep m (G, acc) dep =
            (EnvironmentModuleGraph.delImporterFrom G dep m, acc) := by
          rw [deleteImporterStep, if_neg hc]
          show (if ((EnvironmentModuleGraph.delImporterFrom G dep m).nodeAt dep).importers.isEmpty
              then (EnvironmentModuleGraph.delImporterFrom G dep m, acc ++ [dep])
              else (EnvironmentModuleGraph.delImporterFrom G dep m, acc)) = _
          rw [if_neg (by simp [hemp])]
        rw [hstep]
        exact conv acc

/-- Invariant of the `acceptedModules` resolution loop of `updateModuleInfo`:
it only creates fresh nodes (with empty edge sets) and records resolved
indices; every node's edge sets are untouched. -/
theorem resolveAccepted_fold (resolveId : String → Option PartialResolvedId) :
    ∀ (entries : List (Sum String Nat)) (G : EnvironmentModuleGraph) (acc : List Nat),
      MapsOk G →
      MapsOk (entries.foldl (EnvironmentModuleGraph.resolveAcceptedEntry resolveId) (G, acc)).1 ∧
      G.nodes.length ≤
        (entries.foldl (EnvironmentModuleGraph.resolveAcceptedEntry resolveId) (G, acc)).1.nodes.length ∧
      (∀ j, ((entries.foldl (EnvironmentModuleGraph.resolveAcceptedEntry resolveId) (G, acc)).1.nodeAt j).importers
          = (G.nodeAt j).importers ∧
        ((entries.foldl (EnvironmentModuleGraph.resolveAcceptedEntry resolveId) (G, acc)).1.nodeAt j).importedModules
          = (G.nodeAt j).importedModules) := by
  intro entries
  induction entries with
  | nil =>
    intro G acc hM
    exact ⟨hM, le_refl _, fun j => ⟨rfl, rfl⟩⟩
  | cons e es ih =>
    intro G acc hM
    rw [List.foldl_cons]
    cases e with
    | inl s =>
      simp only [EnvironmentModuleGraph.resolveAcceptedEntry]
      obtain ⟨hM₁, hlen₁, _, hedges₁⟩ := ensure_edges resolveId G s true hM
      obtain ⟨hM₂, hlen₂, hedges₂⟩ :=
        ih (EnvironmentModuleGraph.ensureEntryFromUrl resolveId G s true).1
          (acc ++ [(EnvironmentModuleGraph.ensureEntryFromUrl resolveId G s true).2]) hM₁
      refine ⟨hM₂, by omega, fun j => ?_⟩
      exact ⟨(hedges₂ j).1.trans (hedges₁ j).1, (hedges₂ j).2.trans (hedges₁ j).2⟩
    | inr dep =>
      simp only [EnvironmentModuleGraph.resolveAcceptedEntry]
      exact ih G (acc ++ [dep]) hM

/-- `updateModuleInfo` keeps the lookup tables valid and keeps edge symmetry:
the imported-modules loop adds `m` as importer of exactly the resolved deps,
the module's `importedModules` is replaced by those deps, and the deletion
loop removes `m` from the importers of exactly the no-longer-imported deps. -/
theorem updateModuleInfo_preserves (resolveId : String → Option PartialResolvedId)
    (g : EnvironmentModuleGraph) (m : Nat)
    (importedModules : List (Sum String Nat))
    (importedBindings : Option (List (String × List String)))
    (acceptedModules : List (Sum String Nat))
    (acceptedExports : Option (List String))
    (isSelfAccepting : Bool)
    (staticImportedUrls : Option (List String))
    (hm : m < g.nodes.length)
    (hinr : ∀ d, Sum.inr d ∈ importedModules → d < g.nodes.length)
    (hM : MapsOk g) (hS : SymOk g) :
    MapsOk (EnvironmentModuleGraph.updateModuleInfo resolveId g m importedModules
      importedBindings acceptedModules acceptedExports isSelfAccepting
      staticImportedUrls).1 ∧
    SymOk (EnvironmentModuleGraph.updateModuleInfo resolveId g m importedModules
      importedBindings acceptedModules acceptedExports isSelfAccepting
      staticImportedUrls).1 ∧
    g.nodes.length ≤ (EnvironmentModuleGraph.updateModuleInfo resolveId g m importedModules
      importedBindings acceptedModules acceptedExports isSelfAccepting
      staticImportedUrls).1.nodes.length := by
  let g0 := g.modifyNode m (fun n => { n with isSelfAccepting := some isSelfAccepting })
  let prevImports := (g0.nodeAt m).importedModules
  let p1 := importedModules.foldl
    (EnvironmentModuleGraph.resolveImportedEntry resolveId m) (g0, [])
  let nextImports := dedup p1.2
  let g1 := p1.1.modifyNode m (fun n => { n with importedModules := nextImports })
  let p2 := prevImports.foldl (deleteImporterStep m) (g1, [])
  let p3 := acceptedModules.foldl
    (EnvironmentModuleGraph.resolveAcceptedEntry resolveId) (p2.1, [])
  let g4 := p3.1.modifyNode m (fun n => { n with
    acceptedHmrDeps := dedup p3.2
    staticImportedUrls := staticImportedUrls
    acceptedHmrExports := acceptedExports
    importedBindings := importedBindings })
  have hg0len : g0.nodes.length = g.nodes.length := length_modifyNode g m _
  have hM0 : MapsOk g0 := by
    obtain ⟨a1, a2, a3, a4, a5⟩ := modifyNode_maps g m
      (fun n => { n with isSelfAccepting := some isSelfAccepting })
    exact MapsOk_transfer a1 a2 a3 a4 a5 hg0len hM
  have hg0node : ∀ j, g0.nodeAt j = if j = m ∧ m < g.nodes.length
      then { g.nodeAt m with isSelfAccepting := some isSelfAccepting }
      else g.nodeAt j :=
    fun j => nodeAt_modifyNode g m _ j
  have hg0edges : ∀ j, (g0.nodeAt j).importers = (g.nodeAt j).importers ∧
      (g0.nodeAt j).importedModules = (g.nodeAt j).importedModules := by
    intro j
    rw [hg0node j]
    split
    · rename_i hcond
      obtain ⟨rfl, _⟩ := hcond
      exact ⟨rfl, rfl⟩
    · exact ⟨rfl, rfl⟩
  have hprev : prevImports = (g.nodeAt m).importedModules := (hg0edges m).2
  obtain ⟨ext, hp1eq, hM1, hlen1, hbound1, himp1, himps1⟩ :
      ∃ ext : List Nat, p1.2 = [] ++ ext ∧ MapsOk p1.1 ∧
        g0.nodes.length ≤ p1.1.nodes.length ∧
        (∀ r ∈ ext, r < p1.1.nodes.length) ∧
        (∀ j, (p1.1.nodeAt j).importedModules = (g0.nodeAt j).importedModules) ∧
        (∀ j x, x ∈ (p1.1.nodeAt j).importers ↔
          x ∈ (g0.nodeAt j).importers ∨ (x = m ∧ j ∈ ext)) :=
    resolveImported_fold resolveId m importedModules g0 [] hM0 (by omega)
      (fun d hd => by
        have := hinr d hd
        omega)
  have hp1eq2 : p1.2 = ext := hp1eq.trans (List.nil_append ext)
  have hnx : ∀ c, c ∈ nextImports ↔ c ∈ ext := by
    intro c
    refine Iff.trans (mem_dedup (l := p1.2) (x := c)) ?_
    rw [hp1eq2]
  have hg1len : g1.nodes.length = p1.1.nodes.length := length_modifyNode p1.1 m _
  have hM1g : MapsOk g1 := by
    obtain ⟨a1, a2, a3, a4, a5⟩ := modifyNode_maps p1.1 m
      (fun n => { n with importedModules := nextImports })
    exact MapsOk_transfer a1 a2 a3 a4 a5 hg1len hM1
  have hmp1 : m < p1.1.nodes.length := by omega
  have hg1node : ∀ j, g1.nodeAt j = if j = m ∧ m < p1.1.nodes.length
      then { p1.1.nodeAt m with importedModules := nextImports }
      else p1.1.nodeAt j :=
    fun j => nodeAt_modifyNode p1.1 m _ j
  have hg1imp : ∀ j, (g1.nodeAt j).importedModules =
      if j = m then nextImports else (p1.1.nodeAt j).importedModules := by
    intro j
    rw [hg1node j]
    by_cases hj : j = m
    · rw [if_pos ⟨hj, hmp1⟩, if_pos hj]
    · rw [if_neg (by tauto), if_neg hj]
  have hg1imps : ∀ j, (g1.nodeAt j).importers = (p1.1.nodeAt j).importers := by
    intro j
    rw [hg1node j]
    split
    · rename_i hcond
      obtain ⟨rfl, _⟩ := hcond
      rfl
    · rfl
  have hg1m : (g1.nodeAt m).importedModules = nextImports := by
    rw [hg1imp m, if_pos rfl]
  obtain ⟨l1, l2, l3, l4, l5, l6, l7, l8⟩ :
      p2.1.nodes.length = g1.nodes.length ∧
      p2.1.idToModuleMap = g1.idToModuleMap ∧
      p2.1.unresolvedUrlToModuleMap = g1.unresolvedUrlToModuleMap ∧
      p2.1.urlToModuleMap = g1.urlToModuleMap ∧
      p2.1.etagToModuleMap = g1.etagToModuleMap ∧
      p2.1.fileToModulesMap = g1.fileToModulesMap ∧
      (∀ j, (p2.1.nodeAt j).importedModules = (g1.nodeAt j).importedModules) ∧
      (∀ j x, x ∈ (p2.1.nodeAt j).importers ↔
        x ∈ (g1.nodeAt j).importers ∧
          ¬(x = m ∧ j ∈ prevImports ∧ j ∉ (g1.nodeAt m).importedModules)) :=
    deleteImporters_fold m prevImports g1 []
  have hM2 : MapsOk p2.1 := MapsOk_transfer l2 l3 l4 l5 l6 l1 hM1g
  obtain ⟨hM3, hlen3, hedges3⟩ :
      MapsOk p3.1 ∧ p2.1.nodes.length ≤ p3.1.nodes.length ∧
      (∀ j, (p3.1.nodeAt j).importers = (p2.1.nodeAt j).importers ∧
        (p3.1.nodeAt j).importedModules = (p2.1.nodeAt j).importedModules) :=
    resolveAccepted_fold resolveId acceptedModules p2.1 [] hM2
  have hg4len : g4.nodes.length = p3.1.nodes.length := length_modifyNode p3.1 m _
  have hM4 : MapsOk g4 := by
    obtain ⟨a1, a2, a3, a4, a5⟩ := modifyNode_maps p3.1 m _
    exact MapsOk_transfer a1 a2 a3 a4 a5 hg4len hM3
  have hg4node : ∀ j, g4.nodeAt j = if j = m ∧ m < p3.1.nodes.length
      then { p3.1.nodeAt m with
        acceptedHmrDeps := dedup p3.2
        staticImportedUrls := staticImportedUrls
        acceptedHmrExports := acceptedExports
        importedBindings := importedBindings }
      else p3.1.nodeAt j :=
    fun j => nodeAt_modifyNode p3.1 m _ j
  have hg4edges : ∀ j, (g4.nodeAt j).importers = (p3.1.nodeAt j).importers ∧
      (g4.nodeAt j).importedModules = (p3.1.nodeAt j).importedModules := by
    intro j
    rw [hg4node j]
    split
    · rename_i hcond
      obtain ⟨rfl, _⟩ := hcond
      exact ⟨rfl, rfl⟩
    · exact ⟨rfl, rfl⟩
  have himpFinal : ∀ j, (g4.nodeAt j).importedModules =
      if j = m then nextImports else (g.nodeAt j).importedModules := by
    intro j
    rw [(hg4edges j).2, (hedges3 j).2, l7 j, hg1imp j]
    by_cases hj : j = m
    · rw [if_pos hj, if_pos hj]
    · rw [if_neg hj, if_neg hj, himp1 j, (hg0edges j).2]
  have himpsFinal : ∀ j x, x ∈ (g4.nodeAt j).importers ↔
      ((x ∈ (g.nodeAt j).importers ∨ (x = m ∧ j ∈ ext)) ∧
        ¬(x = m ∧ j ∈ (g.nodeAt m).importedModules ∧ j ∉ nextImports)) := by
    intro j x
    rw [(hg4edges j).1, (hedges3 j).1, l8 j x, hg1m, hg1imps j, himps1 j x,
      (hg0edges j).1, hprev]
  have hSym4 : SymOk g4 := by
    intro a b
    rw [himpFinal a, himpsFinal b a]
    by_cases ham : a = m
    · subst ham
      rw [if_pos rfl]
      have hsb : a ∈ (g.nodeAt b).importers ↔ b ∈ (g.nodeAt a).importedModules :=
        (hS a b).symm
      rw [hnx b, hsb]
      tauto
    · rw [if_neg ham]
      have hsb := hS a b
      tauto
  have hlenFinal : g.nodes.length ≤ g4.nodes.length := by omega
  exact ⟨hM4, hSym4, hlenFinal⟩

/-- A resolver that resolves every url to itself, for the concrete graphs
below. -/
def c1Resolver : String → Option PartialResolvedId := fun u => some { id := u }

/-- One module, `/a.js`. -/
def c1GraphA : EnvironmentModuleGraph :=
  (EnvironmentModuleGraph.ensureEntryFromUrl c1Resolver emptyClientGraph "/a.js").1

/-- `/a.js` (node 0) imports `/b.js` (node 1, created by the update). -/
def c1GraphB : EnvironmentModuleGraph :=
  (EnvironmentModuleGraph.updateModuleInfo c1Resolver c1GraphA 0 [Sum.inl "/b.js"]
    none [] none false none).1

/-- The graph after the unlink branch of `handleFileAddUnlink` for `/a.js`. -/
def c1Unlinked : EnvironmentModuleGraph := handleFileUnlinkEdges c1GraphB "/a.js"

/-- C1 counterexample: the unlink branch of `handleFileAddUnlink` deletes the
deleted module from the `importers` of its imported modules but leaves the
deleted module's own `importedModules` set intact, so full edge symmetry is
lost: with `/a.js` (node 0) importing `/b.js` (node 1), after unlinking
`/a.js` the edge `1 ∈ importedModules(0)` remains while `0 ∉ importers(1)`.
Only the `importers → importedModules` direction survives. -/
theorem C1_counterexample :
    edgeSymmetric c1GraphB = true ∧
    1 ∈ (c1Unlinked.nodeAt 0).importedModules ∧
    0 ∉ (c1Unlinked.nodeAt 1).importers ∧
    edgeSymmetric c1Unlinked = false ∧
    edgeHalfSymmetric c1Unlinked = true := by
  refine ⟨by decide, by decide, by decide, by decide, by decide⟩

/-- C1 (amended): edge symmetry `b ∈ a.importedModules ⇔ a ∈ b.importers` is
an invariant of `ensureEntryFromUrl`, `updateModuleInfo` (for a live module
index and live numeric entries) and all invalidation entry points
(`invalidateModule`, `onFileChange`, `invalidateAll`), alongside the validity
of the edge sets and lookup tables; the unlink branch of
`handleFileAddUnlink`, however, only preserves the direction
`a ∈ b.importers → b ∈ a.importedModules`, deleting importer backlinks
without clearing the deleted module's `importedModules`. -/
theorem C1_theorem :
    (∀ (resolveId : String → Option PartialResolvedId) (g : EnvironmentModuleGraph)
        (u : String) (sisa : Bool),
      mapsValid g = true → edgesValid g = true → edgeSymmetric g = true →
        mapsValid (EnvironmentModuleGraph.ensureEntryFromUrl resolveId g u sisa).1 = true ∧
        edgesValid (EnvironmentModuleGraph.ensureEntryFromUrl resolveId g u sisa).1 = true ∧
        edgeSymmetric (EnvironmentModuleGraph.ensureEntryFromUrl resolveId g u sisa).1 = true) ∧
    (∀ (resolveId : String → Option PartialResolvedId) (g : EnvironmentModuleGraph)
        (m : Nat) (ims : List (Sum String Nat))
        (ibind : Option (List (String × List String)))
        (ams : List (Sum String Nat)) (aexp : Option (List String)) (sisa : Bool)
        (surl : Option (List String)),
      m < g.nodes.length → (∀ d, Sum.inr d ∈ ims → d < g.nodes.length) →
      mapsValid g = true → edgesValid g = true → edgeSymmetric g = true →
        mapsValid (EnvironmentModuleGraph.updateModuleInfo resolveId g m ims ibind
          ams aexp sisa surl).1 = true ∧
        edgesValid (EnvironmentModuleGraph.updateModuleInfo resolveId g m ims ibind
          ams aexp sisa surl).1 = true ∧
        edgeSymmetric (EnvironmentModuleGraph.updateModuleInfo resolveId g m ims ibind
          ams aexp sisa surl).1 = true) ∧
    (∀ (g : EnvironmentModuleGraph) (fuel i ts fuelF tsF fuelA tsA : Nat)
        (seen : List Nat) (hmr soft : Bool) (file : String),
      edgesValid g = true → edgeSymmetric g = true →
        edgeSymmetric (invalidateModule fuel g i seen ts hmr soft).1 = true ∧
        edgeSymmetric (g.onFileChange fuelF file tsF) = true ∧
        edgeSymmetric (g.invalidateAll fuelA tsA) = true) ∧
    (∀ (g : EnvironmentModuleGraph) (file : String),
      edgesValid g = true → edgeSymmetric g = true →
        edgeHalfSymmetric (handleFileUnlinkEdges g file) = true) := by
  refine ⟨?_, ?_, ?_, ?_⟩
  · intro resolveId g u sisa hmv hev hsv
    have hM := (mapsValid_iff g).mp hmv
    have hE := (edgesValid_iff g).mp hev
    have hS := (edgeSymmetric_iff g hE).mp hsv
    obtain ⟨hM2, _, _, hedges⟩ := ensure_edges resolveId g u sisa hM
    have hS2 : SymOk (EnvironmentModuleGraph.ensureEntryFromUrl resolveId g u sisa).1 := by
      intro a b
      rw [(hedges a).2, (hedges b).1]
      exact hS a b
    have hE2 := EdgesOk_of_SymOk hS2
    exact ⟨(mapsValid_iff _).mpr hM2, (edgesValid_iff _).mpr hE2,
      (edgeSymmetric_iff _ hE2).mpr hS2⟩
  · intro resolveId g m ims ibind ams aexp sisa surl hm hinr hmv hev hsv
    have hM := (mapsValid_iff g).mp hmv
    have hE := (edgesValid_iff g).mp hev
    have hS := (edgeSymmetric_iff g hE).mp hsv
    obtain ⟨hM2, hS2, _⟩ := updateModuleInfo_preserves resolveId g m ims ibind ams
      aexp sisa surl hm hinr hM hS
    have hE2 := EdgesOk_of_SymOk hS2
    exact ⟨(mapsValid_iff _).mpr hM2, (edgesValid_iff _).mpr hE2,
      (edgeSymmetric_iff _ hE2).mpr hS2⟩
  · intro g fuel i ts fuelF tsF fuelA tsA seen hmr soft file hev hsv
    have hE := (edgesValid_iff g).mp hev
    have hS := (edgeSymmetric_iff g hE).mp hsv
    have hstep := invalidateNodeStep_keeps_frame g
    have hfA : invalidationFrame g (invalidateModule fuel g i seen ts hmr soft).1 :=
      (invalidate_preserves _ hstep fuel).1 _ _ _ _ _ _ (invalidationFrame_refl g)
    have hfB : invalidationFrame g (g.onFileChange fuelF file tsF) := by
      unfold EnvironmentModuleGraph.onFileChange
      split
      · exact invalidationFrame_refl g
      · exact foldl_invalidate_preserves _ hstep fuelF tsF _ _ _ (invalidationFrame_refl g)
    have hfC : invalidationFrame g (g.invalidateAll fuelA tsA) := by
      unfold EnvironmentModuleGraph.invalidateAll
      exact foldl_invalidate_preserves _ hstep fuelA tsA _ _ _ (invalidationFrame_refl g)
    have hSA := SymOk_of_frame hfA hS
    have hSB := SymOk_of_frame hfB hS
    have hSC := SymOk_of_frame hfC hS
    exact ⟨(edgeSymmetric_iff _ (EdgesOk_of_SymOk hSA)).mpr hSA,
      (edgeSymmetric_iff _ (EdgesOk_of_SymOk hSB)).mpr hSB,
      (edgeSymmetric_iff _ (EdgesOk_of_SymOk hSC)).mpr hSC⟩
  · intro g file hev hsv
    have hE := (edgesValid_iff g).mp hev
    have hS := (edgeSymmetric_iff g hE).mp hsv
    exact edgeHalfSymmetric_of _
      (halfOk_of_shrink (handleFileUnlinkEdges_shrink g file) hS)

/-- C1 witness: the amended statement exercised on the two-module graph used
by the counterexample. -/
theorem C1_witness :
    (mapsValid c1GraphA = true ∧ edgesValid c1GraphA = true ∧
      edgeSymmetric c1GraphA = true ∧ (0 : Nat) < c1GraphA.nodes.length) ∧
    edgeSymmetric (EnvironmentModuleGraph.updateModuleInfo c1Resolver c1GraphA 0
      [Sum.inl "/b.js"] none [] none false none).1 = true ∧
    edgeSymmetric (invalidateModule 5 c1GraphB 0 [] 42 true false).1 = true ∧
    edgeHalfSymmetric (handleFileUnlinkEdges c1GraphB "/a.js") = true :=
  ⟨⟨by decide, by decide, by decide, by decide⟩,
    (C1_theorem.2.1 c1Resolver c1GraphA 0 [Sum.inl "/b.js"] none [] none false none
      (by decide) (by intro d hd; simp at hd) (by decide) (by decide) (by decide)).2.2,
    (C1_theorem.2.2.1 c1GraphB 5 0 42 0 0 0 0 [] true false "x"
      (by decide) (by decide)).1,
    C1_theorem.2.2.2 c1GraphB "/a.js" (by decide) (by decide)⟩

end Vite
